import Mathlib

/-!
# Verification of the openweave-tlv-schema core

A shallow embedding of the Weave TLV Schema compiler core
(`openweave/tlv/schema/node.py`, `obj.py`, `transformer.py`) and proofs
about its derived-value engine, validator checks and resolver.

The Python code is object-oriented and lazily cached; the embedding
represents each node kind by a plain datatype carrying the post-parse
(resp. post-resolution, where stated) attributes that the translated
methods read, and translates each method into a pure function.  Lazy
caches (`_possibleTags`, `_id`, `_upperBound`, ...) memoise pure
computations and are modelled by the computation itself.
-/

namespace WeaveTLV

/-! ## Tags (node.py, class Tag)

A `Tag` qualifier after resolution.  `Tag.profileId` returns
`profileNode.id` when the profile reference resolved, else the raw
`profile` slot, which is `None`, an integer, or an unresolved name
string; `PSlot` models the two non-`None` cases. `srcRef` stands for the
node identity / source reference of the qualifier object. -/

inductive PSlot where
  | num (n : Int)
  | str (s : String)
deriving DecidableEq, Repr

structure TagQ where
  profileId : Option PSlot
  tagNum : Option Int
  srcRef : Nat
deriving DecidableEq, Repr

/-- `Tag.asTuple`: `(self.profileId, self.tagNum)`. -/
def TagQ.asTuple (t : TagQ) : Option PSlot × Option Int :=
  (t.profileId, t.tagNum)

/-- `Tag.isAnonTag`: `tagNum is None and profile is None`. -/
def TagQ.isAnonTag (t : TagQ) : Bool :=
  t.tagNum = none && t.profileId = none

/-! ## Diagnostics (error.py)

`WeaveTLVSchemaError` carries a message, an optional detail and a source
reference.  Messages are built by `%`-formatting in the source; the
constructors below carry the formatted-in data of each message template.
`ambiguousTag` stands for the separate `AmbiguousTagError` exception,
were it ever recorded as a diagnostic (the proofs show it never is). -/

inductive ErrMsg where
  | invalidTypeReference (name : String)
  | circularTypeReference (name : String)
  | duplicateField (construct : String) (name : String)
  | duplicateTag (construct : String) (tag : Option PSlot × Option Int)
  | duplicateIncludes
  | missingTag (construct : String) (name : String)
  | invalidUseOfAnonymousTag
  | enumValueOutOfRange (value : Int)
  | inconsistentVendorId (id : Int)
  | inconsistentProfileId (id : Int)
  | nonUniqueProfileId (id : Int)
  | invalidVendorReference (name : String)
  | invalidProfileReference (name : String)
  | idQualifierMissing (construct : String)
  | invalidIdValue (construct : String)
  | ambiguousTag
deriving DecidableEq, Repr

structure SchemaErr where
  msg : ErrMsg
  detail : Option String
  src : Option Nat
deriving DecidableEq, Repr

/-- `AmbiguousTagError` (error.py): an exception type distinct from
`WeaveTLVSchemaError`; it carries no data. -/
inductive AmbiguousTagError where
  | mk
deriving DecidableEq, Repr

/-- Python `dict` assignment `d[k] = v`: keeps the insertion position of
an existing key, overwrites its value, appends a fresh key. -/
def dictInsert {κ ν : Type} [DecidableEq κ] (l : List (κ × ν)) (k : κ) (v : ν) :
    List (κ × ν) :=
  if l.any (fun p => p.1 = k) then
    l.map (fun p => if p.1 = k then (k, v) else p)
  else
    l ++ [(k, v)]

/-- Python `dict` lookup `d.get(k, None)`: the value of the (unique)
entry with key `k`. -/
def dictGet {κ ν : Type} [DecidableEq κ] : List (κ × ν) → κ → Option ν
  | [], _ => none
  | (k, v) :: tl, key => if k = key then some v else dictGet tl key

/-! ## Quantifier normalisation (transformer.py)

`_SchemaTransformer._popQuantifier` maps each quantifier parse tree to a
`(lowerBound, upperBound)` pair, and `unnamed_ltp_elem` gives an element
with no quantifier the bounds `(1, 1)`.  `none` in the second component
models Python `None` (no upper bound). -/

inductive Quant where
  | quant_0_or_1
  | quant_0_or_more
  | quant_1_or_more
  | quant_exactly_n (n : Int)
  | quant_range (n m : Int)
deriving DecidableEq, Repr

/-- `_SchemaTransformer._popQuantifier` (transformer.py lines 505-524),
without the source-reference third component. -/
def popQuantifier : Quant → Int × Option Int
  | .quant_0_or_1 => (0, some 1)
  | .quant_0_or_more => (0, none)
  | .quant_1_or_more => (1, none)
  | .quant_exactly_n n => (n, some n)
  | .quant_range n m => (n, some m)

/-- The `(lowerBound, upperBound)` attributes that
`_SchemaTransformer.unnamed_ltp_elem` stores on a
`LinearTypePatternElement`: the popped quantifier when one is present,
`(1, 1)` otherwise. -/
def ltpElemBounds : Option Quant → Int × Option Int
  | some q => popQuantifier q
  | none => (1, some 1)

/-! ## Integer types and range bounds (node.py, IntegerTypeNode)

A `Range` qualifier is constructed either from a width or from an
explicit bounds pair (`Range.__init__` nulls the other slots), and
`IntegerTypeNode.isInRange` derives the effective bounds from it. -/

inductive RangeQual where
  | width (w : Nat)
  | explicitBounds (lowerBound upperBound : Int)
deriving DecidableEq, Repr

/-- An integer type node: `SignedIntegerType` (`signed = true`) or
`UnsignedIntegerType` (`signed = false`), with its optional `range`
qualifier. -/
structure IntTypeM where
  signed : Bool
  range : Option RangeQual
deriving DecidableEq, Repr

/-- `IntegerTypeNode.isInRange` (node.py lines 363-379).  The source
computes `width = range.width if range is not None else 64`; when that
is a number it derives two-power bounds (`(2 ** (width-1)) * -1` /
`(2 ** (width-1)) - 1` for signed, `0` / `(2 ** width) - 1` for
unsigned), else it takes the qualifier's explicit bounds. -/
def IntTypeM.isInRange (t : IntTypeM) (val : Int) : Bool :=
  let b : Int × Int :=
    match t.range with
    | some (.explicitBounds lo hi) => (lo, hi)
    | some (.width w) =>
        if t.signed then (((2 : Int) ^ (w - 1)) * (-1), (2 : Int) ^ (w - 1) - 1)
        else (0, (2 : Int) ^ w - 1)
    | none =>
        if t.signed then (((2 : Int) ^ (64 - 1)) * (-1), (2 : Int) ^ (64 - 1) - 1)
        else (0, (2 : Int) ^ 64 - 1)
  decide (val ≥ b.1) && decide (val ≤ b.2)

/-- An `IntegerEnumValue` node: a named enumerated value.
`valueSourceRef` is the source reference of the value literal. -/
structure IntegerEnumValueM where
  name : String
  value : Int
  valueSourceRef : Nat
deriving DecidableEq, Repr

/-- `IntegerEnumValue.validate` (node.py lines 1298-1303): one
`enumerated integer value out of range` error when the value is outside
the parent integer type's effective bounds, nothing otherwise. -/
def integerEnumValueValidate (parent : IntTypeM) (v : IntegerEnumValueM) :
    List SchemaErr :=
  if parent.isInRange v.value then []
  else [⟨.enumValueOutOfRange v.value, none, some v.valueSourceRef⟩]

/-! ## Choice types, leaf alternates and possible tags (node.py)

The post-resolution underlying type of a tag-bearing node, as far as the
tag machinery inspects it.  A `ReferencedType` is modelled by the two
attributes the tag code reads after resolution: `ReferencedType.effectiveTag`
(the default tag found by walking the chain of type definitions, node.py
lines 1262-1280) and `ReferencedType.targetType` (the terminal
non-reference type attached by the resolver).  `scalar` stands for every
other (non-choice, non-reference) type node. -/

mutual

inductive AltType where
  | choice (alternates : AltList)
  | ref (effectiveTag : Option TagQ) (target : AltType)
  | scalar

inductive ChoiceAlt where
  | mk (name : Option String) (tag : Option TagQ) (ty : AltType)

inductive AltList where
  | nil
  | cons (hd : ChoiceAlt) (tl : AltList)

end

def ChoiceAlt.name : ChoiceAlt → Option String
  | .mk n _ _ => n

/-- `HasTag.tag`: the tag qualifier directly attached to the alternate. -/
def ChoiceAlt.tag : ChoiceAlt → Option TagQ
  | .mk _ t _ => t

def ChoiceAlt.ty : ChoiceAlt → AltType
  | .mk _ _ ty => ty

def AltList.toList : AltList → List ChoiceAlt
  | .nil => []
  | .cons a tl => a :: tl.toList

/-- `HasType.targetType`: the ultimate target when the underlying type is
a `ReferencedType`, the type itself otherwise. -/
def AltType.targetTypeOf : AltType → AltType
  | .ref _ t => t
  | t => t

/-- `ChoiceAlternate.isLeafAlternate`: true when `targetType` is not a
`ChoiceType`. -/
def ChoiceAlt.isLeafAlternate (a : ChoiceAlt) : Bool :=
  match a.ty.targetTypeOf with
  | .choice _ => false
  | _ => true

/-- `ChoiceType.allLeafAlternateChains` (node.py lines 1200-1216) on the
alternate list of a choice.  Each result is the leaf alternate followed
by the non-leaf alternates leading to it in ascending order
(`altChain.insert(0, alt)` = `alt :: superiorAltChain`).  A non-leaf
alternate is descended into when `followTypeRefs` holds or its `type` is
itself directly a `ChoiceType`. -/
def AltList.leafChains : AltList → List ChoiceAlt → Bool → List (List ChoiceAlt)
  | .nil, _, _ => []
  | .cons (.mk nm tg ty) tl, superiorAltChain, followTypeRefs =>
      let alt : ChoiceAlt := .mk nm tg ty
      let altChain := alt :: superiorAltChain
      let here : List (List ChoiceAlt) :=
        match ty with
        | .choice alts => alts.leafChains altChain followTypeRefs
        | .ref _ (.choice alts) =>
            if followTypeRefs then alts.leafChains altChain followTypeRefs else []
        | _ => [altChain]
      here ++ tl.leafChains superiorAltChain followTypeRefs

/-- The per-alternate step of the default-tag walk in
`ChoiceType.allLeafAlternatesWithNamesAndTags`: the alternate's own tag,
else `alt.type.effectiveTag` when the alternate's type is a
`ReferencedType`. -/
def ChoiceAlt.ownDefaultTag (a : ChoiceAlt) : Option TagQ :=
  match a.tag with
  | some t => some t
  | none =>
    match a.ty with
    | .ref e _ => e
    | _ => none

/-- The default-tag computation of
`ChoiceType.allLeafAlternatesWithNamesAndTags` (node.py lines 1190-1197):
walk `reversed(altChain)` (outermost alternate first) and stop at the
first alternate yielding a tag. -/
def chainDefaultTag (altChain : List ChoiceAlt) : Option TagQ :=
  altChain.reverse.findSome? ChoiceAlt.ownDefaultTag

/-- `ChoiceType.allLeafAlternatesWithNamesAndTags` (node.py lines
1185-1198): for each leaf chain, the chain, the leaf's name
(`altChain[0].name`) and the effective default tag. -/
def allLeafAlternatesWithNamesAndTags (alts : AltList) :
    List (List ChoiceAlt × Option String × Option TagQ) :=
  (alts.leafChains [] true).map
    (fun ch => (ch, ch.head?.bind ChoiceAlt.name, chainDefaultTag ch))

/-- The loop body of `ChoiceType.possibleTags`: store a leaf's default
tag in the `tagSet` dict under its `asTuple()` key, or store `None`
under the `None` key for an untagged leaf. -/
def cptStep (m : List (Option (Option PSlot × Option Int) × Option TagQ))
    (lt : List ChoiceAlt × Option String × Option TagQ) :
    List (Option (Option PSlot × Option Int) × Option TagQ) :=
  match lt.2.2 with
  | some defaultTag => dictInsert m (some defaultTag.asTuple) (some defaultTag)
  | none => dictInsert m none none

/-- The `tagSet` dict of `ChoiceType.possibleTags` after the loop. -/
def tagSetOf (alts : AltList) :
    List (Option (Option PSlot × Option Int) × Option TagQ) :=
  (allLeafAlternatesWithNamesAndTags alts).foldl cptStep []

/-- `ChoiceType.possibleTags` (node.py lines 1160-1177): collect the
default tags of all leaf alternates into an insertion-ordered dict keyed
by `defaultTag.asTuple()` (key `none` for untagged leaves), take the
values, and collapse the single-`None` list to the empty list. -/
def choicePossibleTags (alts : AltList) : List (Option TagQ) :=
  let pts := (tagSetOf alts).map (fun p => p.2)
  match pts with
  | [none] => []
  | _ => pts

/-- The key under which a possible-tag element was stored:
`asTuple` for a tag, `none` for the sentinel. -/
def ptKey (t : Option TagQ) : Option (Option PSlot × Option Int) :=
  t.map TagQ.asTuple

/-! ## Tag-bearing nodes (node.py, mixin HasTag)

A node that can carry a tag — `TypeDef`, `StructureField`,
`ChoiceAlternate`, `LinearTypePatternElement` — as seen by
`HasTag.possibleTags` / `HasTag.effectiveTag`: its directly attached tag
qualifier and its underlying type. -/

structure TagNode where
  tag : Option TagQ
  ty : AltType

/-- `HasTag.possibleTags` (node.py lines 195-223): a directly attached
tag alone; else, when the underlying type is a reference, its effective
tag (when it has one) or the possible tags of its target choice type;
else the possible tags of a direct choice type; else nothing. -/
def TagNode.possibleTags (n : TagNode) : List (Option TagQ) :=
  match n.tag with
  | some t => [some t]
  | none =>
    match n.ty with
    | .ref e target =>
      match e with
      | some t => [some t]
      | none =>
        match target with
        | .choice alts => choicePossibleTags alts
        | _ => []
    | .choice alts => choicePossibleTags alts
    | _ => []

/-- `HasTag.effectiveTag` (node.py lines 176-193): `None` on an empty
possible-tag list, the unique element on a singleton, and an
`AmbiguousTagError` otherwise. -/
def TagNode.effectiveTagE (n : TagNode) : Except AmbiguousTagError (Option TagQ) :=
  match n.possibleTags with
  | [] => .ok none
  | [t] => .ok t
  | _ => .error .mk

/-! ## Vendors, profiles and their ids (node.py Vendor / Profile / Id,
obj.py id checks)

An `Id` qualifier carries a number and an optional vendor slot (a name
string or a number); the resolver attaches `vendorNode` when the slot is
a name that resolves.  `VendorM` models a `Vendor` node by its derived
`Vendor.id` property (`None` when its own id qualifier is missing). -/

structure VendorM where
  id : Option Int
deriving DecidableEq, Repr

inductive VendorSlot where
  | num (n : Int)
  | name (s : String)
deriving DecidableEq, Repr

structure IdQualM where
  idNum : Int
  vendor : Option VendorSlot
  vendorNode : Option VendorM
deriving DecidableEq, Repr

/-- `Id.vendorId` (node.py lines 778-782): `vendorNode.id` when the
resolver attached a vendor node, else the raw `vendor` slot. -/
def IdQualM.vendorId (q : IdQualM) : Option (Int ⊕ String) :=
  match q.vendorNode with
  | some vn => vn.id.map Sum.inl
  | none =>
    match q.vendor with
    | none => none
    | some (.num n) => some (Sum.inl n)
    | some (.name s) => some (Sum.inr s)

/-- A `Profile` node: its fully qualified name, its optional `id`
qualifier and its source reference. -/
structure ProfileM where
  name : String
  idQual : Option IdQualM
  srcRef : Nat
deriving DecidableEq, Repr

/-- `Profile.id` (node.py lines 871-881): `idNum` when there is no
vendor id, `(vendorId << 16) + idNum` when the vendor id is an integer
(`x << 16` is `x * 2 ** 16` on Python ints), and `None` when the id
qualifier is missing or the vendor slot is an unresolved name string. -/
def ProfileM.id (p : ProfileM) : Option Int :=
  match p.idQual with
  | none => none
  | some q =>
    match q.vendorId with
    | none => some q.idNum
    | some (Sum.inl vendorId) => some (vendorId * 2 ^ 16 + q.idNum)
    | some (Sum.inr _) => none

/-- `WeaveTLVSchema._checkInconsistentProfileIds` (obj.py lines
188-200): for each group of like-named profiles, drop those without ids
and report every profile whose id differs from the first one's. -/
def checkInconsistentProfileIds (groups : List (List ProfileM)) : List SchemaErr :=
  groups.flatMap (fun likeNamedProfiles =>
    let likeNamedProfiles := likeNamedProfiles.filter (fun p => p.id.isSome)
    match likeNamedProfiles with
    | [] => []
    | p0 :: _ =>
      likeNamedProfiles.filterMap (fun p =>
        match p.id with
        | none => none
        | some i =>
          if p.id ≠ p0.id then
            some ⟨.inconsistentProfileId i,
                  some "PROFILE definitions with the same name must declare the same profile id",
                  some p.srcRef⟩
          else none))

/-- The loop of `WeaveTLVSchema._checkUniqueProfileIds` (obj.py lines
202-216), carrying the `profilesById` dict. -/
def checkUniqueProfileIdsAux (profilesById : List (Int × ProfileM)) :
    List ProfileM → List SchemaErr
  | [] => []
  | p :: rest =>
    match p.id with
    | none => checkUniqueProfileIdsAux profilesById rest
    | some i =>
      match dictGet profilesById i with
      | some otherProfile =>
        if p.name ≠ otherProfile.name then
          ⟨.nonUniqueProfileId i,
           some "PROFILE definitions with distinct names must have distinct profile ids",
           some p.srcRef⟩ :: checkUniqueProfileIdsAux profilesById rest
        else checkUniqueProfileIdsAux profilesById rest
      | none => checkUniqueProfileIdsAux ((i, p) :: profilesById) rest

/-- `WeaveTLVSchema._checkUniqueProfileIds`: profiles without ids are
skipped; a profile whose id was already claimed by a profile with a
different fully qualified name is reported. -/
def checkUniqueProfileIds (profiles : List ProfileM) : List SchemaErr :=
  checkUniqueProfileIdsAux [] profiles

/-! ## Structured types (node.py StructuredTypeNode)

A `StructureType` (`isFieldGroup = false`) or `FieldGroupType`
(`isFieldGroup = true`).  `nodeId` models Python object identity of the
node (used by the `field.parent == self` comparisons); distinct nodes of
one AST have distinct ids.  An includes statement carries its resolved
`targetType` (`none` when unresolved). -/

mutual

inductive StructM where
  | mk (isFieldGroup : Bool) (nodeId : Nat) (members : MemberList)

inductive MemberM where
  | field (name : String) (nameSourceRef : Nat) (sourceRef : Nat)
      (tag : Option TagQ) (ty : AltType)
  | includes (sourceRef : Nat) (targetType : Option StructM)

inductive MemberList where
  | nil
  | cons (hd : MemberM) (tl : MemberList)

end

/-- `_schemaConstruct` of the structured node. -/
def StructM.construct : StructM → String
  | .mk true _ _ => "FIELD GROUP type"
  | .mk false _ _ => "STRUCTURE type"

def StructM.nodeId : StructM → Nat
  | .mk _ i _ => i

/-- A `StructureField` as enumerated by `allFields`, together with the
identity of its parent structured node. -/
structure FieldInfo where
  name : String
  nameSourceRef : Nat
  sourceRef : Nat
  tag : Option TagQ
  ty : AltType
  parentId : Nat

/-- `HasTag.possibleTags` of a structure field. -/
def FieldInfo.possibleTags (f : FieldInfo) : List (Option TagQ) :=
  TagNode.possibleTags ⟨f.tag, f.ty⟩

mutual

/-- `StructuredTypeNode.allFields` (node.py lines 465-474): direct
fields, and the fields of each includes statement whose target is a
`FieldGroupType`, recursively. -/
def StructM.allFields : StructM → List FieldInfo
  | .mk _ nodeId ms => ms.allFieldsOf nodeId

def MemberList.allFieldsOf : MemberList → Nat → List FieldInfo
  | .nil, _ => []
  | .cons (.field nm nsrc src tg ty) tl, parentId =>
      ⟨nm, nsrc, src, tg, ty, parentId⟩ :: tl.allFieldsOf parentId
  | .cons (.includes _ target) tl, parentId =>
      (match target with
       | some (.mk true fgId fgMembers) => (StructM.mk true fgId fgMembers).allFields
       | _ => []) ++ tl.allFieldsOf parentId

end

/-- `StructuredTypeNode.allFieldsWithIncludes` (node.py lines 482-492):
like `allFields`, but every field contributed through an includes
statement is paired with that statement (modelled by its source
reference). -/
def MemberList.allFieldsWithIncludesOf : MemberList → Nat → List (FieldInfo × Option Nat)
  | .nil, _ => []
  | .cons (.field nm nsrc src tg ty) tl, parentId =>
      (⟨nm, nsrc, src, tg, ty, parentId⟩, none) :: tl.allFieldsWithIncludesOf parentId
  | .cons (.includes isrc target) tl, parentId =>
      (match target with
       | some (.mk true fgId fgMembers) =>
           ((StructM.mk true fgId fgMembers).allFields).map (fun f => (f, some isrc))
       | _ => []) ++ tl.allFieldsWithIncludesOf parentId

def StructM.allFieldsWithIncludes : StructM → List (FieldInfo × Option Nat)
  | .mk _ nodeId ms => ms.allFieldsWithIncludesOf nodeId

/-- The loop of `StructuredTypeNode._checkDuplicateFieldNames` (node.py
lines 521-535), carrying the `fieldsSeen` dict (keys in insertion
order).  A later field with an already seen name is reported unless it
was suppressed by `field.parent == self or field.parent !=
fieldsSeen[field.name].parent` evaluating to false. -/
def dupFieldNamesAux (construct : String) (selfId : Nat)
    (fieldsSeen : List (String × FieldInfo)) :
    List (FieldInfo × Option Nat) → List SchemaErr
  | [] => []
  | (field, fieldIncludeStmt) :: rest =>
    match dictGet fieldsSeen field.name with
    | none =>
        dupFieldNamesAux construct selfId (fieldsSeen ++ [(field.name, field)]) rest
    | some prev =>
      if field.parentId = selfId ∨ field.parentId ≠ prev.parentId then
        let src := match fieldIncludeStmt with
          | none => field.nameSourceRef
          | some isrc => isrc
        ⟨.duplicateField construct field.name,
         some ("fields within a " ++ construct ++ " must have unique names"),
         some src⟩ :: dupFieldNamesAux construct selfId fieldsSeen rest
      else dupFieldNamesAux construct selfId fieldsSeen rest

/-- `StructuredTypeNode._checkDuplicateFieldNames`. -/
def checkDuplicateFieldNames (s : StructM) : List SchemaErr :=
  dupFieldNamesAux s.construct s.nodeId [] s.allFieldsWithIncludes

/-- The loop of `StructuredTypeNode._checkDuplicateTags` (node.py lines
559-592), carrying the `tagsSeen` dict from `tag.asTuple()` keys to the
field that introduced them.  For each field, every one of its possible
tags already seen on an earlier field is reported; only after that are
all the field's tags added to `tagsSeen`. -/
def dupTagsAux (construct : String)
    (tagsSeen : List ((Option PSlot × Option Int) × FieldInfo)) :
    List (FieldInfo × Option Nat) → List SchemaErr
  | [] => []
  | (field, fieldIncludeStmt) :: rest =>
    let errsHere : List SchemaErr := field.possibleTags.filterMap (fun t =>
      match t with
      | none => none
      | some tag =>
        match dictGet tagsSeen tag.asTuple with
        | none => none
        | some _ =>
          let src : Option Nat := match fieldIncludeStmt with
            | some isrc => some isrc
            | none => if field.tag = some tag then some tag.srcRef else some field.sourceRef
          some ⟨.duplicateTag construct tag.asTuple,
                some ("fields within a " ++ construct ++ " must have unique tags"),
                src⟩)
    let tagsSeen2 := field.possibleTags.foldl (fun m t =>
      match t with
      | some tag => dictInsert m tag.asTuple field
      | none => m) tagsSeen
    errsHere ++ dupTagsAux construct tagsSeen2 rest

/-- `StructuredTypeNode._checkDuplicateTags`. -/
def checkDuplicateTags (s : StructM) : List SchemaErr :=
  dupTagsAux s.construct [] s.allFieldsWithIncludes

/-- The loop of `StructuredTypeNode._checkDuplicateIncludes` (node.py
lines 508-519), tracking already included target types (by node
identity; `none` stands for an unresolved target). -/
def dupIncludesAux (construct : String) (includedFieldGroups : List (Option Nat)) :
    MemberList → List SchemaErr
  | .nil => []
  | .cons (.field _ _ _ _ _) tl => dupIncludesAux construct includedFieldGroups tl
  | .cons (.includes isrc target) tl =>
    let fg := target.map StructM.nodeId
    if fg ∈ includedFieldGroups then
      ⟨.duplicateIncludes,
       some "the includes statement references a FIELD GROUP that has already been included",
       some isrc⟩ :: dupIncludesAux construct includedFieldGroups tl
    else dupIncludesAux construct (includedFieldGroups ++ [fg]) tl

def checkDuplicateIncludes (s : StructM) : List SchemaErr :=
  match s with
  | .mk _ _ ms => dupIncludesAux s.construct [] ms

/-- `StructuredTypeNode._checkMissingOrInvalidTags` (node.py lines
537-557): only direct fields are checked; a field with no possible tag
or an untagged choice alternate gets a `missing tag` error, a field with
an anonymous possible tag gets an `invalid use of anonymous tag`
error. -/
def missingTagsAux (construct : String) : MemberList → List SchemaErr
  | .nil => []
  | .cons (.includes _ _) tl => missingTagsAux construct tl
  | .cons (.field nm _ src tg ty) tl =>
    let possibleTags := TagNode.possibleTags ⟨tg, ty⟩
    let missing : List SchemaErr :=
      if possibleTags.length = 0 ∨ none ∈ possibleTags then
        match ty.targetTypeOf with
        | .choice _ =>
            [⟨.missingTag construct nm,
              some ("all CHOICE OF alternates within a " ++ construct ++
                    " field must declare an associated tag"), some src⟩]
        | _ =>
            [⟨.missingTag construct nm,
              some ("fields within a " ++ construct ++ " must declare an associated tag"),
              some src⟩]
      else []
    let anon : List SchemaErr :=
      if possibleTags.any (fun t => match t with | some tag => tag.isAnonTag | none => false) then
        [⟨.invalidUseOfAnonymousTag,
          some ("fields within a " ++ construct ++ " cannot declare an anonymous tag"),
          some src⟩]
      else []
    missing ++ anon ++ missingTagsAux construct tl

def checkMissingOrInvalidTags (s : StructM) : List SchemaErr :=
  match s with
  | .mk _ _ ms => missingTagsAux s.construct ms

/-- `StructuredTypeNode.validate` (node.py lines 497-502), without the
qualifier checks of `HasQualifiers.validate` (qualifier lists are not
part of this embedding). -/
def structuredValidate (s : StructM) : List SchemaErr :=
  checkDuplicateIncludes s ++ checkDuplicateFieldNames s ++
  checkMissingOrInvalidTags s ++ checkDuplicateTags s

/-! ## Type-reference resolution (obj.py `_resolveTypeReferences`)

This part of the embedding covers schema collections whose statements
are top-level type definitions (no namespaces), so a `ReferencedType`
node is the body of some type definition and is identified by that
definition's index; `_resolveTypeName` then reduces to looking up the
first type definition carrying the target name
(`WeaveTLVSchema.getTypeDef` returns the first entry of the index).
`TDType.other code` stands for any non-reference body type node,
identified by `code`. -/

inductive TDType where
  | ref (targetName : String) (srcRef : Nat)
  | other (code : Nat)
deriving DecidableEq, Repr

structure TypeDefM where
  name : String
  ty : TDType
deriving DecidableEq, Repr

/-- Index of the first list element satisfying `p`. -/
def findFirstIdx {α : Type} (p : α → Bool) : List α → Option Nat
  | [] => none
  | a :: tl => if p a then some 0 else (findFirstIdx p tl).map (fun i => i + 1)

/-- `refNode.targetTypeDef` after the first resolution loop: the index
of the first type definition whose name is the reference's target
name. -/
def getTypeDefIdx (tds : List TypeDefM) (typeName : String) : Option Nat :=
  findFirstIdx (fun td => td.name = typeName) tds

/-- Outcome of the chain-following `while` loop of
`_resolveTypeReferences` for one originating reference node. -/
inductive ChainRes where
  | noAttach
  | circular (e : SchemaErr)
  | attach (origin : Nat) (tyCode : Nat)
deriving DecidableEq, Repr

/-- The `while refNode.targetTypeDef is not None` loop of
`_resolveTypeReferences` (obj.py lines 243-256).  `r` is the index of
the type definition whose body is the current reference node;
`visitedRefNodes` collects such indices.  The loop appends the current
reference, then either steps to the target definition's body reference
(error when it was already visited), or attaches the terminal
non-reference type to `visitedRefNodes[0]`.  The fuel only bounds the
iteration count; `resolveTypeReferences` passes enough for the visited
list, whose entries are distinct, to be exhausted. -/
def chainLoopAux (tds : List TypeDefM) :
    Nat → List Nat → Nat → ChainRes
  | 0, _, _ => .noAttach
  | fuel + 1, visitedRefNodes, r =>
    match tds.get? r with
    | none => .noAttach
    | some td =>
      match td.ty with
      | .other _ => .noAttach
      | .ref targetName srcRef =>
        match getTypeDefIdx tds targetName with
        | none => .noAttach
        | some tdIdx =>
          let visitedRefNodes := visitedRefNodes ++ [r]
          match tds.get? tdIdx with
          | none => .noAttach
          | some td2 =>
            match td2.ty with
            | .ref _ _ =>
              if tdIdx ∈ visitedRefNodes then
                .circular ⟨.circularTypeReference targetName,
                           some "the given type reference ultimately refers to itself",
                           some srcRef⟩
              else chainLoopAux tds fuel visitedRefNodes tdIdx
            | .other code =>
              match visitedRefNodes.head? with
              | some origin => .attach origin code
              | none => .noAttach

/-- The indices of the type definitions whose body is a reference node —
the iteration order of `allNodes((ReferencedType, StructureIncludes))`
for this fragment. -/
def refIndices (tds : List TypeDefM) : List Nat :=
  (List.range tds.length).filter (fun i =>
    match tds.get? i with
    | some ⟨_, .ref _ _⟩ => true
    | _ => false)

/-- The first loop of `_resolveTypeReferences` (obj.py lines 231-236):
an `invalid type reference` error for every reference whose target name
does not resolve. -/
def resolveNamesErrs (tds : List TypeDefM) : List SchemaErr :=
  (refIndices tds).filterMap (fun r =>
    match tds.get? r with
    | some ⟨_, .ref targetName srcRef⟩ =>
      match getTypeDefIdx tds targetName with
      | none => some ⟨.invalidTypeReference targetName,
                      some "the given type name could not be resolved",
                      some srcRef⟩
      | some _ => none
    | _ => none)

/-- The chain loop run from every reference node in order. -/
def resolveChainAll (tds : List TypeDefM) : List ChainRes :=
  (refIndices tds).map (fun r => chainLoopAux tds (tds.length + 1) [] r)

/-- The `circular type reference` errors of the second loop, in emission
order. -/
def chainErrs (tds : List TypeDefM) : List SchemaErr :=
  (resolveChainAll tds).filterMap (fun res =>
    match res with
    | .circular e => some e
    | _ => none)

/-- The `targetType` attachments made by the second loop: pairs of the
originating reference node and the attached terminal type's code. -/
def chainAttachments (tds : List TypeDefM) : List (Nat × Nat) :=
  (resolveChainAll tds).filterMap (fun res =>
    match res with
    | .attach origin code => some (origin, code)
    | _ => none)

/-- `WeaveTLVSchema._resolveTypeReferences` (obj.py lines 218-256):
the unresolved-name errors of the first loop followed by the circular
reference errors of the second. -/
def resolveTypeReferences (tds : List TypeDefM) : List SchemaErr :=
  resolveNamesErrs tds ++ chainErrs tds

/-- The type definitions of a cyclic schema over the given names:
definition `i` is named `names[i]` and its body references
`names[(i+1) % n]` (e.g. `a => b`, `b => c`, `c => a`), with `i` as the
body's source reference. -/
def cycleSchema (names : List String) : List TypeDefM :=
  (List.range names.length).map (fun i =>
    ⟨names.getD i "", .ref (names.getD ((i + 1) % names.length) "") i⟩)

/-- The type definitions of an acyclic reference chain: each definition
references the next and the last one's body is the non-reference type
`code` (e.g. `a => b`, `b => c`, `c => INTEGER`). -/
def chainSchema (names : List String) (code : Nat) : List TypeDefM :=
  (List.range names.length).map (fun i =>
    ⟨names.getD i "",
     if i + 1 = names.length then .other code
     else .ref (names.getD (i + 1) "") i⟩)

/-! ## Vendor declarations and the schema collection (obj.py)

A `Vendor` node, by the attributes `Vendor.validate` and the
whole-collection vendor check read. -/

structure VendorDeclM where
  name : String
  idQual : Option IdQualM
  srcRef : Nat
deriving DecidableEq, Repr

/-- `Vendor.id` (node.py lines 834-840): the id qualifier's number. -/
def VendorDeclM.id (v : VendorDeclM) : Option Int :=
  v.idQual.map (fun q => q.idNum)

/-- `Vendor.validate` (node.py lines 842-859), for a vendor at global
scope: an error when the id qualifier is missing, or when its value has
a vendor slot or is out of the range 0-65535. -/
def vendorValidate (v : VendorDeclM) : List SchemaErr :=
  match v.idQual with
  | none => [⟨.idQualifierMissing "VENDOR definition", none, some v.srcRef⟩]
  | some idQual =>
    if idQual.vendor ≠ none ∨ idQual.idNum < 0 ∨ idQual.idNum > 65535 then
      [⟨.invalidIdValue "VENDOR definition",
        some "id value for VENDOR must be a single integer in the range 0-65535",
        some v.srcRef⟩]
    else []

/-- Append a value to the group of key `k` of an insertion-ordered dict
of lists (Python `defaultdict(list)` indexing plus `append`). -/
def dictAppend {α : Type} (m : List (String × List α)) (k : String) (a : α) :
    List (String × List α) :=
  if m.any (fun p => p.1 = k) then
    m.map (fun p => if p.1 = k then (p.1, p.2 ++ [a]) else p)
  else m ++ [(k, [a])]

/-- The per-name groups of a list, in first-occurrence order — the
`values()` of the name-keyed `defaultdict` indices of
`WeaveTLVSchema`. -/
def groupByName {α : Type} (key : α → String) (l : List α) : List (List α) :=
  (l.foldl (fun m a => dictAppend m (key a) a) []).map (fun p => p.2)

/-- `WeaveTLVSchema._checkInconsistentVendorIds` (obj.py lines 174-186),
over the like-named vendor groups. -/
def checkInconsistentVendorIds (groups : List (List VendorDeclM)) : List SchemaErr :=
  groups.flatMap (fun likeNamedVendors =>
    let likeNamedVendors := likeNamedVendors.filter (fun v => v.id.isSome)
    match likeNamedVendors with
    | [] => []
    | v0 :: _ =>
      likeNamedVendors.filterMap (fun v =>
        match v.id with
        | none => none
        | some i =>
          if v.id ≠ v0.id then
            some ⟨.inconsistentVendorId i,
                  some "VENDOR definitions with the same name must declare the same vendor id",
                  some v.srcRef⟩
          else none))

/-- A loaded schema file, restricted to the statement kinds of this
embedding: top-level type definitions, structured types, integer types
with enumerated values, vendors and profiles. -/
structure FileM where
  fileName : String
  typeDefs : List TypeDefM
  structs : List StructM
  enums : List (IntTypeM × List IntegerEnumValueM)
  vendors : List VendorDeclM
  profiles : List ProfileM

/-- A schema collection: the loaded files and the
`_defaultSchemaLoaded` flag. -/
structure CollectionM where
  schemaFiles : List FileM
  defaultSchemaLoaded : Bool

/-- The built-in default schema `common => VENDOR [ id 0 ]`
(obj.py lines 40-42), as a loaded file named `(default)`. -/
def defaultSchemaFile : FileM :=
  ⟨"(default)", [], [], [], [⟨"common", some ⟨0, none, none⟩, 0⟩], []⟩

/-- `WeaveTLVSchema.loadDefaultSchema` (obj.py lines 97-104): loads the
default schema once, guarded by `_defaultSchemaLoaded`. -/
def loadDefaultSchema (c : CollectionM) : CollectionM :=
  if c.defaultSchemaLoaded then c
  else ⟨c.schemaFiles ++ [defaultSchemaFile], true⟩

/-- `WeaveTLVSchema.getVendor`: the first vendor with the given name
across all files. -/
def getVendor (files : List FileM) (vendorName : String) : Option VendorDeclM :=
  (files.flatMap (fun f => f.vendors)).find? (fun v => v.name = vendorName)

/-- `WeaveTLVSchema._resolveVendorReferences` (obj.py lines 275-284) for
one profile's id qualifier: when the vendor slot is a name string,
attach the vendor node found by `getVendor`, or report an `invalid
vendor reference`.  Returns the profile with the re-evaluated attachment
and the errors. -/
def resolveVendorRefOf (files : List FileM) (p : ProfileM) :
    ProfileM × List SchemaErr :=
  match p.idQual with
  | none => (p, [])
  | some q =>
    match q.vendor with
    | some (.name s) =>
      match getVendor files s with
      | some vn => (⟨p.name, some ⟨q.idNum, q.vendor, some ⟨vn.id⟩⟩, p.srcRef⟩, [])
      | none => (⟨p.name, some ⟨q.idNum, q.vendor, none⟩, p.srcRef⟩,
                 [⟨.invalidVendorReference s,
                   some "a VENDOR definition with the specified name could not be found",
                   some p.srcRef⟩])
    | _ => (p, [])

/-- All profiles of the collection with vendor references re-evaluated,
plus the resolution errors in traversal order. -/
def resolveVendorRefs (files : List FileM) : List ProfileM × List SchemaErr :=
  let rs := (files.flatMap (fun f => f.profiles)).map (resolveVendorRefOf files)
  (rs.map (fun r => r.1), rs.flatMap (fun r => r.2))

/-- The validation errors of the per-node walk
(`for node in self.allNodes(): node.validate(errs)`) for the node kinds
of this embedding, file by file. -/
def nodeValidateErrs (files : List FileM) : List SchemaErr :=
  files.flatMap (fun f =>
    f.vendors.flatMap vendorValidate ++
    f.structs.flatMap structuredValidate ++
    f.enums.flatMap (fun e => e.2.flatMap (integerEnumValueValidate e.1)))

/-- The error list accumulated by `WeaveTLVSchema.validate` (obj.py
lines 106-119) on the given files: type-reference resolution, vendor
reference resolution, the per-node walk, then the whole-collection
vendor and profile id checks.  (Resolution re-evaluates all references
each run, per the note in `_resolveTypeReferences`; attachments are
modelled as recomputation.) -/
def collectionErrs (files : List FileM) : List SchemaErr :=
  let (profiles, vendorRefErrs) := resolveVendorRefs files
  resolveTypeReferences (files.flatMap (fun f => f.typeDefs)) ++
  vendorRefErrs ++
  nodeValidateErrs files ++
  checkInconsistentVendorIds (groupByName VendorDeclM.name (files.flatMap (fun f => f.vendors))) ++
  checkInconsistentProfileIds (groupByName ProfileM.name profiles) ++
  checkUniqueProfileIds profiles

/-- `WeaveTLVSchema.validate` (obj.py lines 106-119): load the default
schema if needed, then run resolution, the node walk and the
whole-collection checks, returning the updated collection and the
accumulated error list. -/
def collectionValidate (c : CollectionM) : CollectionM × List SchemaErr :=
  let c := loadDefaultSchema c
  (c, collectionErrs c.schemaFiles)

/-- Whether every member of a structured type is a directly declared
field (no includes statements). -/
def MemberList.isAllFields : MemberList → Bool
  | .nil => true
  | .cons (.field _ _ _ _ _) tl => tl.isAllFields
  | .cons (.includes _ _) _ => false

/-! ## Concrete fixtures used by witnesses and counterexamples -/

/-- A context-specific tag `[n]`. -/
def ctxTag (n : Int) (src : Nat) : TagQ := ⟨none, some n, src⟩

/-- The choice of scenario E4:
`c1 => CHOICE OF { a [1]: STRING, CHOICE OF { b [2]: BOOLEAN }, c: INTEGER }`. -/
def exChoiceE4 : AltList :=
  .cons (.mk (some "a") (some (ctxTag 1 101)) .scalar)
    (.cons (.mk none none
        (.choice (.cons (.mk (some "b") (some (ctxTag 2 102)) .scalar) .nil)))
      (.cons (.mk (some "c") none .scalar) .nil))

/-- A choice with a single untagged leaf alternate:
`CHOICE OF { c : INTEGER }`. -/
def exChoiceUntagged : AltList :=
  .cons (.mk (some "c") none .scalar) .nil

/-- The field group of scenario E2:
`fg => FIELD GROUP { f1 [0]: INTEGER, f2 [1]: INTEGER, f1 [2]: STRING }`. -/
def exFG : StructM :=
  .mk true 1
    (.cons (.field "f1" 10 11 (some (ctxTag 0 20)) .scalar)
      (.cons (.field "f2" 12 13 (some (ctxTag 1 21)) .scalar)
        (.cons (.field "f1" 14 15 (some (ctxTag 2 22)) .scalar) .nil)))

/-- The structure of scenario E2: `s => STRUCTURE { includes fg }`. -/
def exS : StructM :=
  .mk false 2 (.cons (.includes 30 (some exFG)) .nil)

/-- A structure with one field whose underlying choice type carries the
same tag on two alternates:
`s => STRUCTURE { f : CHOICE OF { a [1]: STRING, b [1]: BOOLEAN } }`. -/
def exSameTagChoiceStruct : StructM :=
  .mk false 3
    (.cons (.field "f" 40 41 none
        (.choice (.cons (.mk (some "a") (some (ctxTag 1 50)) .scalar)
          (.cons (.mk (some "b") (some (ctxTag 1 51)) .scalar) .nil)))) .nil)

/-! # Theorems -/

/-- C8: the parse-event adapter normalises every pattern-element
quantifier to a `(lowerBound, upperBound)` pair: `?` to `(0,1)`, `*` to
`(0, unbounded)`, `+` to `(1, unbounded)`, `{n}` to `(n,n)`,
`{n..m}` to `(n,m)`, and a missing quantifier to `(1,1)`, where
an absent upper bound represents `unbounded`. -/
theorem quantifier_normalisation :
    ltpElemBounds (some .quant_0_or_1) = (0, some 1) ∧
    ltpElemBounds (some .quant_0_or_more) = (0, none) ∧
    ltpElemBounds (some .quant_1_or_more) = (1, none) ∧
    (∀ n : Int, ltpElemBounds (some (.quant_exactly_n n)) = (n, some n)) ∧
    (∀ n m : Int, ltpElemBounds (some (.quant_range n m)) = (n, some m)) ∧
    ltpElemBounds none = (1, some 1) :=
  ⟨rfl, rfl, rfl, fun _ => rfl, fun _ _ => rfl, rfl⟩

/-- C6: a signed integer type with a width-`w` range qualifier
(`w ∈ {8,16,32,64}`) accepts exactly `-2^(w-1) ≤ v ≤ 2^(w-1)-1`; an
unsigned one exactly `0 ≤ v ≤ 2^w-1`; without a range qualifier the
bounds are those of the 64-bit case; and an enumerated value outside the
effective bounds produces exactly one `enumerated integer value out of
range` error naming the value (none otherwise). -/
theorem integer_range_bounds :
    (∀ (w : Nat) (v : Int), w = 8 ∨ w = 16 ∨ w = 32 ∨ w = 64 →
      (IntTypeM.isInRange ⟨true, some (.width w)⟩ v = true ↔
        -((2 : Int) ^ (w - 1)) ≤ v ∧ v ≤ (2 : Int) ^ (w - 1) - 1)) ∧
    (∀ (w : Nat) (v : Int), w = 8 ∨ w = 16 ∨ w = 32 ∨ w = 64 →
      (IntTypeM.isInRange ⟨false, some (.width w)⟩ v = true ↔
        0 ≤ v ∧ v ≤ (2 : Int) ^ w - 1)) ∧
    (∀ (signed : Bool) (v : Int),
      IntTypeM.isInRange ⟨signed, none⟩ v =
        IntTypeM.isInRange ⟨signed, some (.width 64)⟩ v) ∧
    (∀ (t : IntTypeM) (ev : IntegerEnumValueM), t.isInRange ev.value = false →
      integerEnumValueValidate t ev =
        [⟨.enumValueOutOfRange ev.value, none, some ev.valueSourceRef⟩]) ∧
    (∀ (t : IntTypeM) (ev : IntegerEnumValueM), t.isInRange ev.value = true →
      integerEnumValueValidate t ev = []) := by
  refine ⟨?_, ?_, ?_, ?_, ?_⟩
  · intro w v _
    show (decide ((2 : Int) ^ (w - 1) * (-1) ≤ v) &&
          decide (v ≤ (2 : Int) ^ (w - 1) - 1)) = true ↔ _
    simp only [Bool.and_eq_true, decide_eq_true_eq, mul_neg_one]
  · intro w v _
    show (decide ((0 : Int) ≤ v) && decide (v ≤ (2 : Int) ^ w - 1)) = true ↔ _
    simp only [Bool.and_eq_true, decide_eq_true_eq]
  · intro signed v; rfl
  · intro t ev h; simp [integerEnumValueValidate, h]
  · intro t ev h; simp [integerEnumValueValidate, h]

/-- Witness for C6 at `w = 8`: 127 and -128 are in range for a signed
8-bit integer, 128 is not, and the enumerated value 128 of scenario E6
yields exactly the out-of-range error. -/
theorem integer_range_bounds_witness :
    IntTypeM.isInRange ⟨true, some (.width 8)⟩ 127 = true ∧
    IntTypeM.isInRange ⟨false, some (.width 8)⟩ 255 = true ∧
    integerEnumValueValidate ⟨true, some (.width 8)⟩ ⟨"bad", 128, 7⟩ =
      [⟨.enumValueOutOfRange 128, none, some 7⟩] :=
  ⟨(integer_range_bounds.1 8 127 (Or.inl rfl)).mpr (by norm_num),
   (integer_range_bounds.2.1 8 255 (Or.inl rfl)).mpr (by norm_num),
   integer_range_bounds.2.2.2.1 ⟨true, some (.width 8)⟩ ⟨"bad", 128, 7⟩ (by decide)⟩

/-- C7: `validate()` run a second time on the unchanged collection
returns the identical error list (and leaves the collection state
unchanged): the default schema is loaded only once and every later pass
deterministically re-evaluates the same loaded files. -/
theorem validate_idempotent :
    ∀ c : CollectionM,
      collectionValidate (collectionValidate c).1 = collectionValidate c := by
  intro c
  cases c with
  | mk files loaded =>
    cases loaded <;> simp [collectionValidate, loadDefaultSchema]

/-- C5: a profile id qualifier with no vendor slot yields `idNum`; one
whose vendor slot resolved to a vendor with id `v ∈ [0, 65535]`, with
`idNum ∈ [0, 65535]`, yields `(v <<< 16) ||| idNum` (the vendor id of
scenario E3, `0x235A` with profile number 1, gives `0x235A0001`); and
two same-named profiles with differing computed ids produce one
`inconsistent profile id` diagnostic quoting the second id. -/
theorem profile_id_composition :
    (∀ (p : ProfileM) (q : IdQualM), p.idQual = some q → q.vendor = none →
      q.vendorNode = none → p.id = some q.idNum) ∧
    (∀ (p : ProfileM) (q : IdQualM) (v : Int), p.idQual = some q →
      q.vendorNode = some ⟨some v⟩ → 0 ≤ v → v ≤ 65535 → 0 ≤ q.idNum →
      q.idNum ≤ 65535 →
      p.id = some (((v.toNat <<< 16) ||| q.idNum.toNat : Nat) : Int)) ∧
    ProfileM.id ⟨"profile", some ⟨1, some (.name "Nest"), some ⟨some 0x235A⟩⟩, 9⟩ =
      some 0x235A0001 ∧
    (∀ (p1 p2 : ProfileM) (a b : Int), p1.id = some a → p2.id = some b → a ≠ b →
      checkInconsistentProfileIds [[p1, p2]] =
        [⟨.inconsistentProfileId b,
          some "PROFILE definitions with the same name must declare the same profile id",
          some p2.srcRef⟩]) := by
  refine ⟨?_, ?_, by decide, ?_⟩
  · intro p q hq hv hn
    simp [ProfileM.id, hq, IdQualM.vendorId, hv, hn]
  · intro p q v hq hn hv0 hv1 hi0 hi1
    have harith : ((v.toNat <<< 16 ||| q.idNum.toNat : Nat) : Int) = v * 2 ^ 16 + q.idNum := by
      have hb : q.idNum.toNat < 2 ^ 16 := by omega
      rw [Nat.shiftLeft_eq, Nat.mul_comm, ← Nat.mul_add_lt_is_or hb]
      push_cast
      rw [Int.toNat_of_nonneg hv0, Int.toNat_of_nonneg hi0]
      ring
    simp [ProfileM.id, hq, IdQualM.vendorId, hn, harith]
  · intro p1 p2 a b ha hb hab
    have h1 : p1.id.isSome = true := by rw [ha]; rfl
    have h2 : p2.id.isSome = true := by rw [hb]; rfl
    simp only [checkInconsistentProfileIds, List.flatMap_cons, List.flatMap_nil,
      List.filter_cons, h1, h2, if_true, List.filter_nil, List.append_nil]
    simp only [List.filterMap_cons, ha, hb]
    simp [Ne.symm hab]

/-- Witness for C5: scenario E3 — vendor `Nest` with id `0x235A` and
profile number 1 compose to `0x235A0001`, and a second like-named
profile with id 42 is reported quoting 42. -/
theorem profile_id_composition_witness :
    ProfileM.id ⟨"profile", some ⟨1, some (.name "Nest"), some ⟨some 0x235A⟩⟩, 9⟩ =
      some (((0x235A <<< 16) ||| 1 : Nat) : Int) ∧
    checkInconsistentProfileIds
        [[⟨"profile", some ⟨1, some (.name "Nest"), some ⟨some 0x235A⟩⟩, 9⟩,
          ⟨"profile", some ⟨42, none, none⟩, 17⟩]] =
      [⟨.inconsistentProfileId 42,
        some "PROFILE definitions with the same name must declare the same profile id",
        some 17⟩] :=
  ⟨profile_id_composition.2.1
      ⟨"profile", some ⟨1, some (.name "Nest"), some ⟨some 0x235A⟩⟩, 9⟩
      ⟨1, some (.name "Nest"), some ⟨some 0x235A⟩⟩ 0x235A rfl rfl
      (by norm_num) (by norm_num) (by norm_num) (by norm_num),
   profile_id_composition.2.2.2
      ⟨"profile", some ⟨1, some (.name "Nest"), some ⟨some 0x235A⟩⟩, 9⟩
      ⟨"profile", some ⟨42, none, none⟩, 17⟩ 0x235A0001 42 (by decide) (by decide)
      (by decide)⟩

/-- Profiles without ids are invisible to `_checkUniqueProfileIds`:
pre-filtering them away does not change the emitted errors. -/
theorem checkUniqueProfileIdsAux_filter (l : List ProfileM) :
    ∀ seen, checkUniqueProfileIdsAux seen (l.filter (fun p => p.id.isSome)) =
      checkUniqueProfileIdsAux seen l := by
  induction l with
  | nil => intro seen; rfl
  | cons p rest ih =>
    intro seen
    cases hp : p.id with
    | none =>
      have hs : p.id.isSome = false := by rw [hp]; rfl
      rw [List.filter_cons, hs]
      simp only [Bool.false_eq_true, if_false, checkUniqueProfileIdsAux, hp]
      exact ih seen
    | some i =>
      have hs : p.id.isSome = true := by rw [hp]; rfl
      rw [List.filter_cons, hs]
      simp only [if_true, checkUniqueProfileIdsAux, hp]
      cases dictGet seen i with
      | some other =>
        by_cases hname : p.name ≠ other.name
        · simp only [if_pos hname, ih]
        · simp only [if_neg hname, ih]
      | none => exact ih _

/-- Filtering a list by the same predicate twice equals filtering
once. -/
theorem filter_self_idem {α : Type} (p : α → Bool) (l : List α) :
    (l.filter p).filter p = l.filter p := by
  induction l with
  | nil => rfl
  | cons a tl ih =>
    by_cases h : p a = true
    · rw [List.filter_cons, if_pos h, List.filter_cons, if_pos h, ih]
    · rw [List.filter_cons, if_neg h, ih]

/-- Profiles without ids are invisible to
`_checkInconsistentProfileIds`: pre-filtering each group does not change
the emitted errors. -/
theorem checkInconsistentProfileIds_filter (groups : List (List ProfileM)) :
    checkInconsistentProfileIds
        (groups.map (fun g => g.filter (fun p => p.id.isSome))) =
      checkInconsistentProfileIds groups := by
  induction groups with
  | nil => rfl
  | cons g gs ih =>
    simp only [List.map_cons, checkInconsistentProfileIds, List.flatMap_cons] at ih ⊢
    rw [filter_self_idem, ih]

/-- C10: `Profile.id` is `None` when the id qualifier is absent and when
the qualifier's vendor slot is an unresolved name string; and profiles
whose id is `None` are skipped by both whole-collection profile id
checks, so they contribute no `inconsistent profile id` or `non-unique
profile id` diagnostic (removing them changes neither check's
output). -/
theorem profile_id_none_skipped :
    (∀ p : ProfileM, p.idQual = none → p.id = none) ∧
    (∀ (p : ProfileM) (q : IdQualM) (s : String), p.idQual = some q →
      q.vendor = some (.name s) → q.vendorNode = none → p.id = none) ∧
    (∀ profiles : List ProfileM,
      checkUniqueProfileIds (profiles.filter (fun p => p.id.isSome)) =
        checkUniqueProfileIds profiles) ∧
    (∀ groups : List (List ProfileM),
      checkInconsistentProfileIds
          (groups.map (fun g => g.filter (fun p => p.id.isSome))) =
        checkInconsistentProfileIds groups) := by
  refine ⟨?_, ?_, ?_, ?_⟩
  · intro p hq; simp [ProfileM.id, hq]
  · intro p q s hq hv hn
    simp [ProfileM.id, hq, IdQualM.vendorId, hv, hn]
  · intro profiles; exact checkUniqueProfileIdsAux_filter profiles []
  · exact checkInconsistentProfileIds_filter

/-- Witness for C10: a profile without id qualifier, one with an
unresolved vendor name, and the two checks on a mixed concrete list. -/
theorem profile_id_none_skipped_witness :
    ProfileM.id ⟨"p", none, 0⟩ = none ∧
    ProfileM.id ⟨"p", some ⟨1, some (.name "ghost"), none⟩, 0⟩ = none ∧
    checkUniqueProfileIds
        (([⟨"p", none, 0⟩, ⟨"q", some ⟨7, none, none⟩, 1⟩] :
          List ProfileM).filter (fun p => p.id.isSome)) =
      checkUniqueProfileIds [⟨"p", none, 0⟩, ⟨"q", some ⟨7, none, none⟩, 1⟩] :=
  ⟨profile_id_none_skipped.1 ⟨"p", none, 0⟩ rfl,
   profile_id_none_skipped.2.1 ⟨"p", some ⟨1, some (.name "ghost"), none⟩, 0⟩
     ⟨1, some (.name "ghost"), none⟩ "ghost" rfl rfl rfl,
   profile_id_none_skipped.2.2.1 [⟨"p", none, 0⟩, ⟨"q", some ⟨7, none, none⟩, 1⟩]⟩

/-! ### Dict and fold lemmas for the possible-tag set -/

theorem fst_dictInsert {κ ν : Type} [DecidableEq κ] (m : List (κ × ν)) (k : κ) (v : ν) :
    (dictInsert m k v).map Prod.fst =
      if m.any (fun p => p.1 = k) then m.map Prod.fst
      else m.map Prod.fst ++ [k] := by
  unfold dictInsert
  split
  · rw [List.map_map]
    apply List.map_congr_left
    intro p _
    by_cases h : p.1 = k
    · simp [h]
    · simp [h]
  · simp

theorem mem_dictInsert {κ ν : Type} [DecidableEq κ] {m : List (κ × ν)} {k : κ} {v : ν}
    {p : κ × ν} (hp : p ∈ dictInsert m k v) : p ∈ m ∨ p = (k, v) := by
  unfold dictInsert at hp
  split at hp
  · obtain ⟨q, hq, hpq⟩ := List.mem_map.mp hp
    by_cases h : q.1 = k
    · right; rw [if_pos h] at hpq; exact hpq.symm
    · left; rw [if_neg h] at hpq; exact hpq ▸ hq
  · rcases List.mem_append.mp hp with h | h
    · exact Or.inl h
    · right; simpa using h

theorem key_mem_dictInsert {κ ν : Type} [DecidableEq κ] (m : List (κ × ν)) (k : κ) (v : ν) :
    k ∈ (dictInsert m k v).map Prod.fst := by
  rw [fst_dictInsert]
  split
  · rename_i h
    obtain ⟨p, hp, hpk⟩ := List.any_eq_true.mp h
    exact List.mem_map.mpr ⟨p, hp, of_decide_eq_true hpk⟩
  · exact List.mem_append.mpr (Or.inr (by simp))

theorem keys_sub_dictInsert {κ ν : Type} [DecidableEq κ] (m : List (κ × ν)) (k k' : κ)
    (v : ν) (h : k' ∈ m.map Prod.fst) : k' ∈ (dictInsert m k v).map Prod.fst := by
  rw [fst_dictInsert]
  split
  · exact h
  · exact List.mem_append.mpr (Or.inl h)

theorem nodup_keys_dictInsert {κ ν : Type} [DecidableEq κ] (m : List (κ × ν)) (k : κ)
    (v : ν) (h : (m.map Prod.fst).Nodup) : ((dictInsert m k v).map Prod.fst).Nodup := by
  rw [fst_dictInsert]
  split
  · exact h
  · rename_i hany
    have hk : k ∉ m.map Prod.fst := by
      intro hkmem
      obtain ⟨p, hp, hpk⟩ := List.mem_map.mp hkmem
      exact hany (List.any_eq_true.mpr ⟨p, hp, decide_eq_true hpk⟩)
    simp [List.nodup_append, h, hk]

theorem cptStep_eq (m : List (Option (Option PSlot × Option Int) × Option TagQ))
    (lt : List ChoiceAlt × Option String × Option TagQ) :
    cptStep m lt = dictInsert m (ptKey lt.2.2) lt.2.2 := by
  rcases lt with ⟨ch, nm, tg⟩
  cases tg <;> rfl

theorem mem_foldl_cptStep {p : Option (Option PSlot × Option Int) × Option TagQ} :
    ∀ (lvs : List (List ChoiceAlt × Option String × Option TagQ))
      (m : List (Option (Option PSlot × Option Int) × Option TagQ)),
      p ∈ lvs.foldl cptStep m → p ∈ m ∨ ∃ lt ∈ lvs, p = (ptKey lt.2.2, lt.2.2) := by
  intro lvs
  induction lvs with
  | nil => intro m hp; exact Or.inl hp
  | cons a tl ih =>
    intro m hp
    rcases ih (cptStep m a) hp with h | ⟨b, hb, hq⟩
    · rw [cptStep_eq] at h
      rcases mem_dictInsert h with h' | h'
      · exact Or.inl h'
      · exact Or.inr ⟨a, List.mem_cons_self a tl, h'⟩
    · exact Or.inr ⟨b, List.mem_cons_of_mem _ hb, hq⟩

theorem keys_mono_foldl_cptStep {k : Option (Option PSlot × Option Int)} :
    ∀ (lvs : List (List ChoiceAlt × Option String × Option TagQ)) (m),
      k ∈ m.map Prod.fst → k ∈ (lvs.foldl cptStep m).map Prod.fst := by
  intro lvs
  induction lvs with
  | nil => intro m h; exact h
  | cons a tl ih =>
    intro m h
    exact ih _ (by rw [cptStep_eq]; exact keys_sub_dictInsert _ _ _ _ h)

theorem keys_complete_foldl_cptStep {k : Option (Option PSlot × Option Int)} :
    ∀ (lvs : List (List ChoiceAlt × Option String × Option TagQ)) (m),
      (∃ lt ∈ lvs, ptKey lt.2.2 = k) → k ∈ (lvs.foldl cptStep m).map Prod.fst := by
  intro lvs
  induction lvs with
  | nil => rintro m ⟨lt, hlt, _⟩; exact absurd hlt (List.not_mem_nil lt)
  | cons a tl ih =>
    rintro m ⟨lt, hlt, hk⟩
    rcases List.mem_cons.mp hlt with rfl | hmem
    · simp only [List.foldl_cons]
      apply keys_mono_foldl_cptStep
      rw [cptStep_eq, ← hk]
      exact key_mem_dictInsert _ _ _
    · exact ih _ ⟨lt, hmem, hk⟩

theorem nodup_keys_foldl_cptStep :
    ∀ (lvs : List (List ChoiceAlt × Option String × Option TagQ)) (m),
      (m.map Prod.fst).Nodup → ((lvs.foldl cptStep m).map Prod.fst).Nodup := by
  intro lvs
  induction lvs with
  | nil => intro m h; exact h
  | cons a tl ih =>
    intro m h
    exact ih _ (by rw [cptStep_eq]; exact nodup_keys_dictInsert _ _ _ h)

/-- Every `tagSet` entry's key is the `ptKey` of its value. -/
theorem tagSetOf_good (alts : AltList) :
    ∀ p ∈ tagSetOf alts, p.1 = ptKey p.2 := by
  intro p hp
  rcases mem_foldl_cptStep _ _ hp with h | ⟨lt, _, rfl⟩
  · exact absurd h (List.not_mem_nil p)
  · rfl

/-- The keys of the possible-tag list are the keys of the `tagSet`. -/
theorem choice_pts_keys (alts : AltList) :
    ((tagSetOf alts).map (fun p => p.2)).map ptKey = (tagSetOf alts).map Prod.fst := by
  rw [List.map_map]
  apply List.map_congr_left
  intro p hp
  exact (tagSetOf_good alts p hp).symm

theorem choicePossibleTags_of_ne (alts : AltList)
    (h : (tagSetOf alts).map (fun p => p.2) ≠ [none]) :
    choicePossibleTags alts = (tagSetOf alts).map (fun p => p.2) := by
  simp only [choicePossibleTags]

/-- A nodup list whose elements are all equal has at most one
element. -/
theorem nodup_const_length {α : Type} {l : List α} {c : α} (hn : l.Nodup)
    (hc : ∀ x ∈ l, x = c) : l.length ≤ 1 := by
  rcases l with _ | ⟨a, _ | ⟨b, tl⟩⟩
  · simp
  · simp
  · have ha := hc a (by simp)
    have hb := hc b (by simp)
    rw [List.nodup_cons] at hn
    exact absurd (by simp [ha, hb]) hn.1

/-- C1 (counterexample): for the choice `CHOICE OF { c : INTEGER }`
there is a leaf alternate with no default tag, yet `possibleTags`
contains no sentinel element (the code collapses the single-`None` list
to the empty list), contradicting the claim that the set contains a
sentinel whenever some leaf alternate has no default tag. -/
theorem choice_possible_tags_counterexample :
    (∃ lt ∈ allLeafAlternatesWithNamesAndTags exChoiceUntagged, lt.2.2 = none) ∧
    none ∉ choicePossibleTags exChoiceUntagged := by
  constructor
  · exact ⟨([ChoiceAlt.mk (some "c") none .scalar], some "c", none),
      List.mem_cons_self _ _, rfl⟩
  · decide

/-- C1 (amended): for every `CHOICE OF` type, `possibleTags` is the
de-duplicated set of the effective default tags of its leaf alternates
(descending through nested `CHOICE OF` types), with a `no tag` sentinel
element exactly when some leaf alternate has no default tag — except
that when no leaf alternate at all has a default tag the result is the
empty set rather than the sentinel singleton.  In particular for the
choice of scenario E4 the result is `{(none,1), (none,2), sentinel}`. -/
theorem choice_possible_tags_amended :
    (∀ alts : AltList,
      (∀ lt ∈ allLeafAlternatesWithNamesAndTags alts, lt.2.2 = none) →
      choicePossibleTags alts = []) ∧
    (∀ alts : AltList,
      (∃ lt ∈ allLeafAlternatesWithNamesAndTags alts, lt.2.2 ≠ none) →
      ((choicePossibleTags alts).map ptKey).Nodup ∧
      (∀ k, k ∈ (choicePossibleTags alts).map ptKey ↔
        ∃ lt ∈ allLeafAlternatesWithNamesAndTags alts, ptKey lt.2.2 = k)) ∧
    (choicePossibleTags exChoiceE4).map ptKey =
      [some (none, some 1), some (none, some 2), none] := by
  have hkeys : ∀ alts k, k ∈ (tagSetOf alts).map Prod.fst ↔
      ∃ lt ∈ allLeafAlternatesWithNamesAndTags alts, ptKey lt.2.2 = k := by
    intro alts k
    constructor
    · intro hk
      obtain ⟨p, hp, rfl⟩ := List.mem_map.mp hk
      rcases mem_foldl_cptStep _ _ hp with h | ⟨lt, hlt, rfl⟩
      · exact absurd h (List.not_mem_nil p)
      · exact ⟨lt, hlt, rfl⟩
    · intro h
      exact keys_complete_foldl_cptStep _ _ h
  have hnodup : ∀ alts, ((tagSetOf alts).map Prod.fst).Nodup := by
    intro alts
    exact nodup_keys_foldl_cptStep _ _ (by simp)
  refine ⟨?_, ?_, by decide⟩
  · intro alts hall
    have hconst : ∀ p ∈ tagSetOf alts, p = (none, none) := by
      intro p hp
      rcases mem_foldl_cptStep _ _ hp with h | ⟨lt, hlt, rfl⟩
      · exact absurd h (List.not_mem_nil p)
      · rw [hall lt hlt]; rfl
    have hlen : (tagSetOf alts).length ≤ 1 := by
      have := nodup_const_length (l := (tagSetOf alts).map Prod.fst)
        (c := (none : Option (Option PSlot × Option Int))) (hnodup alts)
        (by intro x hx
            obtain ⟨p, hp, rfl⟩ := List.mem_map.mp hx
            rw [hconst p hp])
      simpa using this
    unfold choicePossibleTags
    rcases hts : tagSetOf alts with _ | ⟨p, _ | ⟨q, tl⟩⟩
    · rfl
    · have := hconst p (by rw [hts]; simp)
      subst this
      rfl
    · rw [hts] at hlen; simp at hlen
  · intro alts ⟨lt0, hlt0, hne0⟩
    have hne : ((tagSetOf alts).map (fun p => p.2)) ≠ [none] := by
      intro hcontra
      have hk : ptKey lt0.2.2 ∈ (tagSetOf alts).map Prod.fst :=
        (hkeys alts _).mpr ⟨lt0, hlt0, rfl⟩
      rw [← choice_pts_keys, hcontra] at hk
      simp only [List.map_cons, List.map_nil, List.mem_singleton] at hk
      simp only [ptKey, Option.map_none] at hk
      exact hne0 (Option.map_eq_none'.mp hk)
    have hres : choicePossibleTags alts = (tagSetOf alts).map (fun p => p.2) :=
      choicePossibleTags_of_ne alts hne
    rw [hres, choice_pts_keys]
    exact ⟨hnodup alts, fun k => hkeys alts k⟩

/-- Witness for C1 (amended): the all-untagged case on
`CHOICE OF { c : INTEGER }` gives the empty set, and for scenario E4 the
key set is nonduplicated and contains the sentinel. -/
theorem choice_possible_tags_amended_witness :
    choicePossibleTags exChoiceUntagged = [] ∧
    ((choicePossibleTags exChoiceE4).map ptKey).Nodup :=
  ⟨choice_possible_tags_amended.1 exChoiceUntagged (by decide),
   (choice_possible_tags_amended.2.1 exChoiceE4
     ⟨([ChoiceAlt.mk (some "a") (some (ctxTag 1 101)) .scalar], some "a",
        some (ctxTag 1 101)), List.mem_cons_self _ _, by decide⟩).1⟩

/-! ### dictGet lemmas and duplicate-field-name lemmas -/

theorem dictGet_eq_none {κ ν : Type} [DecidableEq κ] :
    ∀ (l : List (κ × ν)) (k : κ), k ∉ l.map Prod.fst → dictGet l k = none := by
  intro l
  induction l with
  | nil => intro k _; rfl
  | cons p tl ih =>
    intro k h
    rcases p with ⟨k1, v1⟩
    simp only [List.map_cons, List.mem_cons, not_or] at h
    simp only [dictGet]
    rw [if_neg (fun hh => h.1 hh.symm)]
    exact ih k h.2

theorem dictGet_mem {κ ν : Type} [DecidableEq κ] :
    ∀ (l : List (κ × ν)) (k : κ) (v : ν), dictGet l k = some v → (k, v) ∈ l := by
  intro l
  induction l with
  | nil => intro k v h; exact absurd h (by simp [dictGet])
  | cons p tl ih =>
    intro k v h
    rcases p with ⟨k1, v1⟩
    by_cases hk : k1 = k
    · subst hk
      have hd : dictGet ((k1, v1) :: tl) k1 = some v1 := by simp [dictGet]
      rw [hd] at h
      obtain rfl := Option.some_injective _ h
      exact List.mem_cons_self _ _
    · simp only [dictGet, if_neg hk] at h
      exact List.mem_cons_of_mem _ (ih k v h)

theorem dictGet_append {κ ν : Type} [DecidableEq κ] (l1 l2 : List (κ × ν)) (k : κ) :
    dictGet (l1 ++ l2) k =
      match dictGet l1 k with
      | some v => some v
      | none => dictGet l2 k := by
  induction l1 with
  | nil => rfl
  | cons p tl ih =>
    rcases p with ⟨k1, v1⟩
    by_cases hk : k1 = k
    · simp [dictGet, if_pos hk]
    · simp only [List.cons_append, dictGet, if_neg hk]
      exact ih

/-- Processing a run of fields with fresh, pairwise distinct names
produces no errors and just extends `fieldsSeen`. -/
theorem dupFieldNamesAux_fresh (construct : String) (selfId : Nat) :
    ∀ (seg : List (FieldInfo × Option Nat)) (seen : List (String × FieldInfo))
      (rest : List (FieldInfo × Option Nat)),
      (∀ fi ∈ seg, fi.1.name ∉ seen.map Prod.fst) →
      (seg.map (fun fi => fi.1.name)).Nodup →
      dupFieldNamesAux construct selfId seen (seg ++ rest) =
        dupFieldNamesAux construct selfId
          (seen ++ seg.map (fun fi => (fi.1.name, fi.1))) rest := by
  intro seg
  induction seg with
  | nil => intro seen rest _ _; simp
  | cons fi tl ih =>
    intro seen rest hfresh hnodup
    rcases fi with ⟨f, inc⟩
    have hf : f.name ∉ seen.map Prod.fst := hfresh (f, inc) (by simp)
    have h1 : ∀ gi ∈ tl, gi.1.name ∉ (seen ++ [(f.name, f)]).map Prod.fst := by
      intro gi hgi
      simp only [List.map_append, List.mem_append, not_or]
      refine ⟨fun hmem => hfresh gi (by simp [hgi]) hmem, ?_⟩
      simp only [List.map_cons, List.nodup_cons] at hnodup
      intro hcontra
      simp only [List.map_cons, List.map_nil, List.mem_singleton] at hcontra
      exact hnodup.1 (hcontra ▸ List.mem_map.mpr ⟨gi, hgi, rfl⟩)
    have h2 : (tl.map (fun fi => fi.1.name)).Nodup := by
      simp only [List.map_cons, List.nodup_cons] at hnodup
      exact hnodup.2
    calc dupFieldNamesAux construct selfId seen (((f, inc) :: tl) ++ rest)
        = dupFieldNamesAux construct selfId (seen ++ [(f.name, f)]) (tl ++ rest) := by
          simp only [List.cons_append, dupFieldNamesAux,
            dictGet_eq_none seen f.name hf]
          try rfl
      _ = dupFieldNamesAux construct selfId
            ((seen ++ [(f.name, f)]) ++ tl.map (fun fi => (fi.1.name, fi.1))) rest :=
          ih (seen ++ [(f.name, f)]) rest h1 h2
      _ = dupFieldNamesAux construct selfId
            (seen ++ ((f, inc) :: tl).map (fun fi => (fi.1.name, fi.1))) rest := by
          rw [List.append_assoc]
          rfl

/-- When every field (in the walk and in `fieldsSeen`) comes from the
same parent node, which is not the checked node itself, the
duplicate-field-name walk is silent: every collision is suppressed by
the shared parent. -/
theorem dupFieldNamesAux_same_parent (construct : String) (selfId pid : Nat)
    (hne : pid ≠ selfId) :
    ∀ (l : List (FieldInfo × Option Nat)) (seen : List (String × FieldInfo)),
      (∀ fi ∈ l, fi.1.parentId = pid) →
      (∀ p ∈ seen, p.2.parentId = pid) →
      dupFieldNamesAux construct selfId seen l = [] := by
  intro l
  induction l with
  | nil => intro seen _ _; rfl
  | cons fi tl ih =>
    intro seen hl hseen
    rcases fi with ⟨f, inc⟩
    have hf : f.parentId = pid := hl (f, inc) (by simp)
    cases hget : dictGet seen f.name with
    | none =>
      simp only [dupFieldNamesAux, hget]
      apply ih
      · intro gi hgi; exact hl gi (List.mem_cons_of_mem _ hgi)
      · intro p hp
        rcases List.mem_append.mp hp with h | h
        · exact hseen p h
        · rw [List.mem_singleton] at h
          rw [h]
          exact hf
    | some prev =>
      have hprev : prev.parentId = pid := hseen (f.name, prev) (dictGet_mem seen f.name prev hget)
      have hcond : ¬(f.parentId = selfId ∨ f.parentId ≠ prev.parentId) := by
        push_neg
        exact ⟨by rw [hf]; exact hne, by rw [hf, hprev]⟩
      simp only [dupFieldNamesAux, hget, if_neg hcond]
      exact ih seen (fun gi hgi => hl gi (List.mem_cons_of_mem _ hgi)) hseen

/-- All-direct member lists yield fields whose parent is the enclosing
node. -/
theorem allFieldsOf_parent : ∀ (ms : MemberList) (pid : Nat),
    ms.isAllFields = true → ∀ f ∈ ms.allFieldsOf pid, f.parentId = pid
  | .nil, _, _ => by intro f hf; exact absurd hf (List.not_mem_nil f)
  | .cons (.field nm nsrc src tg ty) tl, pid, h => by
      intro f hf
      rcases List.mem_cons.mp hf with rfl | hmem
      · rfl
      · exact allFieldsOf_parent tl pid h f hmem
  | .cons (.includes isrc target) tl, _, h => by
      exact absurd h (by simp [MemberList.isAllFields])

/-- Message-shape lemmas: each structured check only emits its own
message kind. -/
theorem dupIncludesAux_msg (construct : String) :
    ∀ (ms : MemberList) (acc : List (Option Nat)) (e : SchemaErr),
      e ∈ dupIncludesAux construct acc ms → e.msg = .duplicateIncludes
  | .nil, _, e => by intro he; exact absurd he (List.not_mem_nil e)
  | .cons (.field nm nsrc src tg ty) tl, acc, e => by
      intro he
      exact dupIncludesAux_msg construct tl acc e he
  | .cons (.includes isrc target) tl, acc, e => by
      intro he
      simp only [dupIncludesAux] at he
      split at he
      · rcases List.mem_cons.mp he with rfl | hmem
        · rfl
        · exact dupIncludesAux_msg construct tl _ e hmem
      · exact dupIncludesAux_msg construct tl _ e he

theorem missingTagsAux_msg (construct : String) :
    ∀ (ms : MemberList) (e : SchemaErr), e ∈ missingTagsAux construct ms →
      (∃ nm, e.msg = .missingTag construct nm) ∨ e.msg = .invalidUseOfAnonymousTag
  | .nil, e => by intro he; exact absurd he (List.not_mem_nil e)
  | .cons (.includes isrc target) tl, e => by
      intro he
      exact missingTagsAux_msg construct tl e he
  | .cons (.field nm nsrc src tg ty) tl, e => by
      intro he
      simp only [missingTagsAux, List.mem_append] at he
      rcases he with (he | he) | he
      · split at he
        · split at he <;> simp only [List.mem_singleton] at he <;> subst he <;>
            exact Or.inl ⟨nm, rfl⟩
        · exact absurd he (List.not_mem_nil e)
      · split at he
        · simp only [List.mem_singleton] at he; subst he; exact Or.inr rfl
        · exact absurd he (List.not_mem_nil e)
      · exact missingTagsAux_msg construct tl e he

theorem dupTagsAux_msg (construct : String) :
    ∀ (l : List (FieldInfo × Option Nat))
      (seen : List ((Option PSlot × Option Int) × FieldInfo)) (e : SchemaErr),
      e ∈ dupTagsAux construct seen l → ∃ t, e.msg = .duplicateTag construct t := by
  intro l
  induction l with
  | nil => intro seen e he; exact absurd he (List.not_mem_nil e)
  | cons fi tl ih =>
    rcases fi with ⟨f, inc⟩
    intro seen e he
    simp only [dupTagsAux, List.mem_append] at he
    rcases he with he | he
    · obtain ⟨t, _, ht⟩ := List.mem_filterMap.mp he
      cases t with
      | none => exact absurd ht (by simp)
      | some tag =>
        simp only at ht
        split at ht
        · exact absurd ht (by simp)
        · simp only [Option.some.injEq] at ht
          subst ht
          exact ⟨tag.asTuple, rfl⟩
    · exact ih _ e he

theorem dupFieldNamesAux_msg (construct : String) (selfId : Nat) :
    ∀ (l : List (FieldInfo × Option Nat)) (seen : List (String × FieldInfo))
      (e : SchemaErr), e ∈ dupFieldNamesAux construct selfId seen l →
      ∃ nm, e.msg = .duplicateField construct nm := by
  intro l
  induction l with
  | nil => intro seen e he; exact absurd he (List.not_mem_nil e)
  | cons fi tl ih =>
    rcases fi with ⟨f, inc⟩
    intro seen e he
    simp only [dupFieldNamesAux] at he
    split at he
    · exact ih _ e he
    · split at he
      · rcases List.mem_cons.mp he with rfl | hmem
        · exact ⟨f.name, rfl⟩
        · exact ih _ e hmem
      · exact ih _ e he

theorem keys_entries (l : List (FieldInfo × Option Nat)) :
    (l.map (fun fi => (fi.1.name, fi.1))).map Prod.fst =
      l.map (fun fi => fi.1.name) := by
  rw [List.map_map]; rfl

/-- The duplicate-field-name walk on
`l1 ++ (fx1, none) :: l2 ++ (fx2, none) :: l3`, where `fx1`/`fx2` carry
the only repeated name and `fx2`'s parent is the checked node, emits
exactly one error, at `fx2`'s name source reference. -/
theorem dupFieldNamesAux_one_dup (construct : String) (selfId : Nat)
    (l1 l2 l3 : List (FieldInfo × Option Nat)) (fx1 fx2 : FieldInfo)
    (hname : fx2.name = fx1.name)
    (hnodup : ((l1 ++ l2 ++ l3).map (fun fi => fi.1.name)).Nodup)
    (hx : fx1.name ∉ (l1 ++ l2 ++ l3).map (fun fi => fi.1.name))
    (hpar : fx2.parentId = selfId) :
    dupFieldNamesAux construct selfId []
        (l1 ++ (fx1, none) :: (l2 ++ (fx2, none) :: l3)) =
      [⟨.duplicateField construct fx2.name,
        some ("fields within a " ++ construct ++ " must have unique names"),
        some fx2.nameSourceRef⟩] := by
  simp only [List.map_append, List.nodup_append, List.mem_append, not_or] at hnodup hx
  obtain ⟨⟨hn1, hn2, hd12⟩, hn3, hd13⟩ := hnodup
  obtain ⟨⟨hx1, hx2⟩, hx3⟩ := hx
  have e1 := dupFieldNamesAux_fresh construct selfId l1 []
    ((fx1, none) :: (l2 ++ (fx2, none) :: l3))
    (by intro fi _; simp) hn1
  rw [e1, List.nil_append]
  have hget1 : dictGet (l1.map (fun fi => (fi.1.name, fi.1))) fx1.name = none :=
    dictGet_eq_none _ _ (by rw [keys_entries]; exact hx1)
  have e2 : dupFieldNamesAux construct selfId (l1.map (fun fi => (fi.1.name, fi.1)))
      ((fx1, none) :: (l2 ++ (fx2, none) :: l3)) =
      dupFieldNamesAux construct selfId
        (l1.map (fun fi => (fi.1.name, fi.1)) ++ [(fx1.name, fx1)])
        (l2 ++ (fx2, none) :: l3) := by
    simp only [dupFieldNamesAux, hget1]
  rw [e2]
  have e3 := dupFieldNamesAux_fresh construct selfId l2
    (l1.map (fun fi => (fi.1.name, fi.1)) ++ [(fx1.name, fx1)])
    ((fx2, none) :: l3) ?hfresh2 hn2
  case hfresh2 =>
    intro gi hgi
    simp only [List.map_append, List.mem_append, not_or, keys_entries]
    refine ⟨fun hmem => hd12 hmem (List.mem_map.mpr ⟨gi, hgi, rfl⟩), ?_⟩
    simp only [List.map_cons, List.map_nil, List.mem_singleton]
    intro hcontra
    exact hx2 (hcontra ▸ List.mem_map.mpr ⟨gi, hgi, rfl⟩)
  rw [e3]
  have hget2 : dictGet
      ((l1.map (fun fi => (fi.1.name, fi.1)) ++ [(fx1.name, fx1)]) ++
        l2.map (fun fi => (fi.1.name, fi.1))) fx2.name = some fx1 := by
    rw [List.append_assoc, dictGet_append, hname, hget1]
    simp [dictGet]
  have e4 : dupFieldNamesAux construct selfId
      ((l1.map (fun fi => (fi.1.name, fi.1)) ++ [(fx1.name, fx1)]) ++
        l2.map (fun fi => (fi.1.name, fi.1)))
      ((fx2, none) :: l3) =
      ⟨.duplicateField construct fx2.name,
        some ("fields within a " ++ construct ++ " must have unique names"),
        some fx2.nameSourceRef⟩ ::
      dupFieldNamesAux construct selfId
        ((l1.map (fun fi => (fi.1.name, fi.1)) ++ [(fx1.name, fx1)]) ++
          l2.map (fun fi => (fi.1.name, fi.1))) l3 := by
    simp only [dupFieldNamesAux, hget2, if_pos (Or.inl hpar)]
  rw [e4]
  have e5 := dupFieldNamesAux_fresh construct selfId l3
    ((l1.map (fun fi => (fi.1.name, fi.1)) ++ [(fx1.name, fx1)]) ++
      l2.map (fun fi => (fi.1.name, fi.1))) [] ?hfresh3 hn3
  case hfresh3 =>
    intro gi hgi
    simp only [List.map_append, List.mem_append, not_or, keys_entries]
    refine ⟨⟨fun hmem => hd13 (List.mem_append.mpr (Or.inl hmem))
        (List.mem_map.mpr ⟨gi, hgi, rfl⟩), ?_⟩,
      fun hmem => hd13 (List.mem_append.mpr (Or.inr hmem))
        (List.mem_map.mpr ⟨gi, hgi, rfl⟩)⟩
    simp only [List.map_cons, List.map_nil, List.mem_singleton]
    intro hcontra
    exact hx3 (hcontra ▸ List.mem_map.mpr ⟨gi, hgi, rfl⟩)
  rw [List.append_nil] at e5
  rw [e5]
  rfl

/-- C4: a duplicate field name arising inside a single included field
group is reported exactly once, against the field group: the field
group's duplicate-name check emits one `duplicate field` error (at the
second field's name source reference), the including structure's check
emits none (the two colliding fields share a parent, which suppresses
the report), and the only `duplicate field` errors of the whole
structured-node validation come from the duplicate-field-name check. -/
theorem duplicate_field_reported_once :
    (∀ st : StructM,
      (structuredValidate st).filter
          (fun e => match e.msg with | .duplicateField _ _ => true | _ => false) =
        checkDuplicateFieldNames st) ∧
    (∀ (fg : StructM) (l1 l2 l3 : List (FieldInfo × Option Nat))
       (fx1 fx2 : FieldInfo),
      fg.allFieldsWithIncludes = l1 ++ (fx1, none) :: (l2 ++ (fx2, none) :: l3) →
      fx2.name = fx1.name →
      ((l1 ++ l2 ++ l3).map (fun fi => fi.1.name)).Nodup →
      fx1.name ∉ (l1 ++ l2 ++ l3).map (fun fi => fi.1.name) →
      fx2.parentId = fg.nodeId →
      checkDuplicateFieldNames fg =
        [⟨.duplicateField fg.construct fx2.name,
          some ("fields within a " ++ fg.construct ++ " must have unique names"),
          some fx2.nameSourceRef⟩]) ∧
    (∀ (isFG : Bool) (sid isrc fgid : Nat) (ms : MemberList),
      ms.isAllFields = true → fgid ≠ sid →
      checkDuplicateFieldNames
        (.mk isFG sid (.cons (.includes isrc (some (.mk true fgid ms))) .nil)) =
        []) := by
  refine ⟨?_, ?_, ?_⟩
  · intro st
    have hsplit : structuredValidate st =
        checkDuplicateIncludes st ++ checkDuplicateFieldNames st ++
        (checkMissingOrInvalidTags st ++ checkDuplicateTags st) := by
      simp [structuredValidate, List.append_assoc]
    rw [hsplit, List.filter_append, List.filter_append, List.filter_append]
    have h1 : (checkDuplicateIncludes st).filter
        (fun e => match e.msg with | .duplicateField _ _ => true | _ => false) = [] := by
      rw [List.filter_eq_nil_iff]
      intro e he
      cases st with
      | mk isFG nid ms =>
        rw [dupIncludesAux_msg _ ms [] e he]
        simp
    have h2 : (checkDuplicateFieldNames st).filter
        (fun e => match e.msg with | .duplicateField _ _ => true | _ => false) =
        checkDuplicateFieldNames st := by
      rw [List.filter_eq_self]
      intro e he
      obtain ⟨nm, hnm⟩ := dupFieldNamesAux_msg st.construct st.nodeId
        st.allFieldsWithIncludes [] e he
      rw [hnm]
    have h3 : (checkMissingOrInvalidTags st).filter
        (fun e => match e.msg with | .duplicateField _ _ => true | _ => false) = [] := by
      rw [List.filter_eq_nil_iff]
      intro e he
      cases st with
      | mk isFG nid ms =>
        rcases missingTagsAux_msg _ ms e he with ⟨nm, hnm⟩ | hnm <;> rw [hnm] <;> simp
    have h4 : (checkDuplicateTags st).filter
        (fun e => match e.msg with | .duplicateField _ _ => true | _ => false) = [] := by
      rw [List.filter_eq_nil_iff]
      intro e he
      obtain ⟨t, ht⟩ := dupTagsAux_msg st.construct st.allFieldsWithIncludes [] e he
      rw [ht]
      simp
    rw [h1, h2, h3, h4]
    simp
  · intro fg l1 l2 l3 fx1 fx2 hafwi hname hnodup hx hpar
    unfold checkDuplicateFieldNames
    rw [hafwi]
    exact dupFieldNamesAux_one_dup fg.construct fg.nodeId l1 l2 l3 fx1 fx2
      hname hnodup hx hpar
  · intro isFG sid isrc fgid ms hall hne
    unfold checkDuplicateFieldNames
    have hafwi : (StructM.mk isFG sid
        (.cons (.includes isrc (some (.mk true fgid ms))) .nil)).allFieldsWithIncludes =
        (ms.allFieldsOf fgid).map (fun f => (f, some isrc)) := by
      simp [StructM.allFieldsWithIncludes, MemberList.allFieldsWithIncludesOf,
        StructM.allFields]
    rw [hafwi]
    apply dupFieldNamesAux_same_parent _ _ fgid hne
    · intro fi hfi
      obtain ⟨f, hf, rfl⟩ := List.mem_map.mp hfi
      exact allFieldsOf_parent ms fgid hall f hf
    · intro p hp
      exact absurd hp (List.not_mem_nil p)

/-- Witness for C4: scenario E2 — `fg` with fields `f1, f2, f1` and
`s => STRUCTURE { includes fg }`: exactly one `duplicate field` error,
against the field group. -/
theorem duplicate_field_reported_once_witness :
    checkDuplicateFieldNames exFG =
      [⟨.duplicateField "FIELD GROUP type" "f1",
        some "fields within a FIELD GROUP type must have unique names",
        some 14⟩] ∧
    checkDuplicateFieldNames exS = [] :=
  ⟨duplicate_field_reported_once.2.1 exFG
      [] [(⟨"f2", 12, 13, some (ctxTag 1 21), .scalar, 1⟩, none)] []
      ⟨"f1", 10, 11, some (ctxTag 0 20), .scalar, 1⟩
      ⟨"f1", 14, 15, some (ctxTag 2 22), .scalar, 1⟩
      rfl rfl (by decide) (by decide) rfl,
   duplicate_field_reported_once.2.2 false 2 30 1
      (.cons (.field "f1" 10 11 (some (ctxTag 0 20)) .scalar)
        (.cons (.field "f2" 12 13 (some (ctxTag 1 21)) .scalar)
          (.cons (.field "f1" 14 15 (some (ctxTag 2 22)) .scalar) .nil)))
      rfl (by decide)⟩

/-! ### Duplicate-tag lemmas -/

/-- Provenance of `tagsSeen` entries added while processing one field:
each new entry is one of the field's own (non-`None`) possible tags. -/
theorem dupTags_seen_fold_mem (field : FieldInfo) :
    ∀ (pts : List (Option TagQ))
      (seen : List ((Option PSlot × Option Int) × FieldInfo))
      (p : (Option PSlot × Option Int) × FieldInfo),
      p ∈ pts.foldl (fun m t =>
        match t with
        | some tag => dictInsert m tag.asTuple field
        | none => m) seen →
      p ∈ seen ∨ ∃ tag : TagQ, some tag ∈ pts ∧ p = (tag.asTuple, field) := by
  intro pts
  induction pts with
  | nil => intro seen p hp; exact Or.inl hp
  | cons t tl ih =>
    intro seen p hp
    rcases ih _ p hp with h | ⟨tag, htag, rfl⟩
    · cases t with
      | none => exact Or.inl h
      | some tag =>
        rcases mem_dictInsert h with h' | h'
        · exact Or.inl h'
        · exact Or.inr ⟨tag, by simp, h'⟩
    · exact Or.inr ⟨tag, List.mem_cons_of_mem _ htag, rfl⟩

/-- Soundness of the duplicate-tag walk: every emitted error pairs the
current field with a strictly earlier field sharing the same tag
tuple. -/
theorem dupTagsAux_sound (construct : String) :
    ∀ (l : List (FieldInfo × Option Nat))
      (seen : List ((Option PSlot × Option Int) × FieldInfo))
      (done : List (FieldInfo × Option Nat)),
      (∀ p ∈ seen, ∃ fe ∈ done, p.2 = fe.1 ∧
        ∃ t : TagQ, some t ∈ fe.1.possibleTags ∧ t.asTuple = p.1) →
      ∀ e ∈ dupTagsAux construct seen l,
      ∃ fe fj : FieldInfo × Option Nat, [fe, fj].Sublist (done ++ l) ∧
        ∃ ti tj : TagQ, some ti ∈ fe.1.possibleTags ∧ some tj ∈ fj.1.possibleTags ∧
          ti.asTuple = tj.asTuple ∧ e.msg = .duplicateTag construct tj.asTuple := by
  intro l
  induction l with
  | nil => intro seen done _ e he; exact absurd he (List.not_mem_nil e)
  | cons fi tl ih =>
    rcases fi with ⟨f, inc⟩
    intro seen done hinv e he
    simp only [dupTagsAux, List.mem_append] at he
    rcases he with he | he
    · obtain ⟨t, htmem, ht⟩ := List.mem_filterMap.mp he
      cases t with
      | none => exact absurd ht (by simp)
      | some tag =>
        simp only at ht
        cases hget : dictGet seen tag.asTuple with
        | none => rw [hget] at ht; exact absurd ht (by simp)
        | some prev =>
          rw [hget] at ht
          simp only [Option.some.injEq] at ht
          obtain ⟨fe, hfe, _, ti, hti, htup⟩ :=
            hinv (tag.asTuple, prev) (dictGet_mem _ _ _ hget)
          obtain ⟨d1, d2, rfl⟩ := List.append_of_mem hfe
          refine ⟨fe, (f, inc), ?_, ti, tag, hti, ?_, htup, ?_⟩
          · have hsub1 : List.Sublist [(f, inc)] ((f, inc) :: tl) :=
              List.Sublist.cons₂ _ (List.nil_sublist tl)
            have hsub2 : List.Sublist [fe, (f, inc)] (fe :: (d2 ++ (f, inc) :: tl)) :=
              List.Sublist.cons₂ _
                (hsub1.trans (List.sublist_append_right d2 _))
            have hsub3 : List.Sublist [fe, (f, inc)]
                (d1 ++ (fe :: (d2 ++ (f, inc) :: tl))) :=
              hsub2.trans (List.sublist_append_right d1 _)
            have hgoal := hsub3
            rw [← List.cons_append, ← List.append_assoc] at hgoal
            exact hgoal
          · exact htmem
          · rw [← ht]
    · have hinv2 : ∀ p ∈ (f.possibleTags.foldl (fun m t =>
          match t with
          | some tag => dictInsert m tag.asTuple f
          | none => m) seen), ∃ fe ∈ done ++ [(f, inc)], p.2 = fe.1 ∧
            ∃ t : TagQ, some t ∈ fe.1.possibleTags ∧ t.asTuple = p.1 := by
        intro p hp
        rcases dupTags_seen_fold_mem f _ _ p hp with h | ⟨tag, htag, rfl⟩
        · obtain ⟨fe2, hfe2, h1, t, h2, h3⟩ := hinv p h
          exact ⟨fe2, List.mem_append.mpr (Or.inl hfe2), h1, t, h2, h3⟩
        · exact ⟨(f, inc), List.mem_append.mpr (Or.inr (by simp)), rfl,
            tag, htag, rfl⟩
      obtain ⟨fe, fj, hsub, hrest⟩ := ih _ (done ++ [(f, inc)]) hinv2 e he
      refine ⟨fe, fj, ?_, hrest⟩
      simpa [List.append_assoc] using hsub

/-- C9: the duplicate-tag check reports a `duplicate tag` error only
when two distinct fields of the expanded field walk share a possible
tag; in particular a struct whose walk has at most one field — e.g. a
single field whose CHOICE OF type repeats a tag across alternates — is
never reported. -/
theorem duplicate_tag_needs_two_fields :
    (∀ (s : StructM) (e : SchemaErr), e ∈ checkDuplicateTags s →
      ∃ fe fj : FieldInfo × Option Nat,
        [fe, fj].Sublist s.allFieldsWithIncludes ∧
        ∃ ti tj : TagQ, some ti ∈ fe.1.possibleTags ∧ some tj ∈ fj.1.possibleTags ∧
          ti.asTuple = tj.asTuple ∧ e.msg = .duplicateTag s.construct tj.asTuple) ∧
    (∀ s : StructM, s.allFieldsWithIncludes.length ≤ 1 →
      checkDuplicateTags s = []) := by
  have hsound : ∀ (s : StructM) (e : SchemaErr), e ∈ checkDuplicateTags s →
      ∃ fe fj : FieldInfo × Option Nat,
        [fe, fj].Sublist s.allFieldsWithIncludes ∧
        ∃ ti tj : TagQ, some ti ∈ fe.1.possibleTags ∧ some tj ∈ fj.1.possibleTags ∧
          ti.asTuple = tj.asTuple ∧ e.msg = .duplicateTag s.construct tj.asTuple := by
    intro s e he
    have := dupTagsAux_sound s.construct s.allFieldsWithIncludes [] []
      (by intro p hp; exact absurd hp (List.not_mem_nil p)) e he
    simpa using this
  refine ⟨hsound, ?_⟩
  intro s hlen
  rw [List.eq_nil_iff_forall_not_mem]
  intro e he
  obtain ⟨fe, fj, hsub, _⟩ := hsound s e he
  have := hsub.length_le
  simp at this
  omega

/-- Witness for C9: the structure whose single field is a CHOICE OF
carrying tag 1 on two alternates yields no duplicate-tag error. -/
theorem duplicate_tag_needs_two_fields_witness :
    checkDuplicateTags exSameTagChoiceStruct = [] :=
  duplicate_tag_needs_two_fields.2 exSameTagChoiceStruct (by decide)

/-! ### Resolver lemmas: cyclic and acyclic reference chains -/

theorem mod_step_cycle (s k n : Nat) :
    ((s + k) % n + 1) % n = (s + (k + 1)) % n := by
  rw [Nat.mod_add_mod, Nat.add_assoc]

theorem mod_wrap_cycle (s n : Nat) (hs : s < n) :
    (s + (n - 1) + 1) % n = s := by
  have h : s + (n - 1) + 1 = s + n := by omega
  rw [h, Nat.add_mod_right, Nat.mod_eq_of_lt hs]

theorem mod_orbit_inj (s n : Nat) {a b : Nat} (ha : a < n) (hb : b < n)
    (h : (s + a) % n = (s + b) % n) : a = b := by
  have hmod : a ≡ b [MOD n] := Nat.ModEq.add_left_cancel' s h
  rwa [Nat.ModEq, Nat.mod_eq_of_lt ha, Nat.mod_eq_of_lt hb] at hmod

/-- Indexing a schema built over a name list. -/
theorem schema_get (names : List String) (body : Nat → TDType) (i : Nat)
    (hi : i < names.length) :
    ((List.range names.length).map
      (fun j => (⟨names.getD j "", body j⟩ : TypeDefM))).get? i =
      some ⟨names.getD i "", body i⟩ := by
  rw [List.get?_eq_getElem?, List.getElem?_map, List.getElem?_range hi]
  rfl

theorem findFirstIdx_spec {α : Type} (p : α → Bool) :
    ∀ (l : List α) (j : Nat) (a : α), l.get? j = some a → p a = true →
      (∀ i b, i < j → l.get? i = some b → p b = false) →
      findFirstIdx p l = some j := by
  intro l
  induction l with
  | nil =>
    intro j a hget _ _
    rw [List.get?_eq_getElem?] at hget
    simp at hget
  | cons x tl ih =>
    intro j a hget hpa hprev
    cases j with
    | zero =>
      rw [List.get?_eq_getElem?, List.getElem?_cons_zero] at hget
      obtain rfl := Option.some_injective _ hget
      simp [findFirstIdx, hpa]
    | succ j' =>
      have hx : p x = false := hprev 0 x (Nat.succ_pos _) rfl
      simp only [findFirstIdx, hx, Bool.false_eq_true, if_false]
      rw [ih j' a ?_ hpa ?_]
      · rfl
      · rw [List.get?_eq_getElem?] at hget ⊢
        rwa [List.getElem?_cons_succ] at hget
      · intro i b hi hb
        apply hprev (i + 1) b (Nat.succ_lt_succ hi)
        rw [List.get?_eq_getElem?, List.getElem?_cons_succ]
        rw [List.get?_eq_getElem?] at hb
        exact hb

/-- With distinct names, a reference to `names[j]` resolves to
definition `j`. -/
theorem getTypeDefIdx_names (names : List String) (body : Nat → TDType)
    (hn : names.Nodup) (j : Nat) (hj : j < names.length) :
    getTypeDefIdx ((List.range names.length).map
      (fun i => (⟨names.getD i "", body i⟩ : TypeDefM))) (names.getD j "") =
      some j := by
  apply findFirstIdx_spec _ _ j ⟨names.getD j "", body j⟩
    (schema_get names body j hj) (by simp) ?_
  intro i b hi hb
  have hi' : i < names.length := lt_trans hi hj
  rw [schema_get names body i hi'] at hb
  obtain rfl := Option.some_injective _ hb
  simp only [decide_eq_false_iff_not]
  have e1 : names.getD i "" = names[i] := by
    rw [List.getD_eq_getElem?_getD, List.getElem?_eq_getElem hi']
    rfl
  have e2 : names.getD j "" = names[j] := by
    rw [List.getD_eq_getElem?_getD, List.getElem?_eq_getElem hj]
    rfl
  rw [e1, e2]
  intro hcontra
  exact absurd ((List.Nodup.getElem_inj_iff hn).mp hcontra) (Nat.ne_of_lt hi)

/-- One iteration of the chain loop whose target definition's body is
again a reference. -/
theorem chainLoopAux_step_ref (tds : List TypeDefM) (fuel : Nat)
    (visited : List Nat) (r : Nat) (nm targetName : String) (srcRef tdIdx : Nat)
    (nm2 tn2 : String) (sr2 : Nat)
    (h1 : tds.get? r = some ⟨nm, .ref targetName srcRef⟩)
    (h2 : getTypeDefIdx tds targetName = some tdIdx)
    (h3 : tds.get? tdIdx = some ⟨nm2, .ref tn2 sr2⟩) :
    chainLoopAux tds (fuel + 1) visited r =
      if tdIdx ∈ visited ++ [r] then
        .circular ⟨.circularTypeReference targetName,
                   some "the given type reference ultimately refers to itself",
                   some srcRef⟩
      else chainLoopAux tds fuel (visited ++ [r]) tdIdx := by
  simp only [chainLoopAux, h1, h2, h3]

/-- One iteration of the chain loop whose target definition's body is a
terminal (non-reference) type. -/
theorem chainLoopAux_step_term (tds : List TypeDefM) (fuel : Nat)
    (visited : List Nat) (r : Nat) (nm targetName : String) (srcRef tdIdx : Nat)
    (nm2 : String) (code : Nat) (origin : Nat)
    (h1 : tds.get? r = some ⟨nm, .ref targetName srcRef⟩)
    (h2 : getTypeDefIdx tds targetName = some tdIdx)
    (h3 : tds.get? tdIdx = some ⟨nm2, .other code⟩)
    (h4 : (visited ++ [r]).head? = some origin) :
    chainLoopAux tds (fuel + 1) visited r = .attach origin code := by
  simp only [chainLoopAux, h1, h2, h3, h4]

/-- The chain loop on a cyclic schema, started at `s` and having walked
`k` steps, ends in a `circular type reference` error naming
`names[s]`, reported at the reference inside definition
`(s + n - 1) % n`. -/
theorem cycle_walk (names : List String) (hn : names.Nodup) (s : Nat)
    (hs : s < names.length) :
    ∀ (d k fuel : Nat), k + d + 1 = names.length → d + 1 ≤ fuel →
      chainLoopAux (cycleSchema names) fuel
        ((List.range k).map (fun t => (s + t) % names.length))
        ((s + k) % names.length) =
      .circular ⟨.circularTypeReference (names.getD s ""),
                 some "the given type reference ultimately refers to itself",
                 some ((s + (names.length - 1)) % names.length)⟩ := by
  have hget : ∀ i, i < names.length → (cycleSchema names).get? i =
      some ⟨names.getD i "",
            .ref (names.getD ((i + 1) % names.length) "") i⟩ := by
    intro i hi
    simp only [cycleSchema]
    exact schema_get names
      (fun j => .ref (names.getD ((j + 1) % names.length) "") j) i hi
  have hidx : ∀ j, j < names.length →
      getTypeDefIdx (cycleSchema names) (names.getD j "") = some j := by
    intro j hj
    simp only [cycleSchema]
    exact getTypeDefIdx_names names
      (fun i => .ref (names.getD ((i + 1) % names.length) "") i) hn j hj
  intro d
  induction d with
  | zero =>
    intro k fuel hk hfuel
    have hnpos : 0 < names.length := by omega
    have hcur : (s + k) % names.length < names.length := Nat.mod_lt _ hnpos
    obtain ⟨f, rfl⟩ : ∃ f, fuel = f + 1 := ⟨fuel - 1, by omega⟩
    have hnext : (((s + k) % names.length) + 1) % names.length = s := by
      rw [mod_step_cycle]
      have : k + 1 = names.length := by omega
      rw [this, Nat.add_mod_right, Nat.mod_eq_of_lt hs]
    have hstep := chainLoopAux_step_ref (cycleSchema names) f
      ((List.range k).map (fun t => (s + t) % names.length))
      ((s + k) % names.length)
      (names.getD ((s + k) % names.length) "")
      (names.getD ((((s + k) % names.length) + 1) % names.length) "")
      ((s + k) % names.length) s
      (names.getD s "") (names.getD ((s + 1) % names.length) "") s
      (hget _ hcur)
      (by rw [hnext]; exact hidx s hs)
      (hget s hs)
    rw [hnext] at hstep
    rw [hstep, if_pos ?_]
    · have hk1 : k = names.length - 1 := by omega
      rw [hk1]
    · rcases Nat.eq_zero_or_pos k with rfl | hkpos
      · have hs0 : s = 0 := by omega
        subst hs0
        simp
      · apply List.mem_append.mpr
        left
        apply List.mem_map.mpr
        exact ⟨0, List.mem_range.mpr hkpos,
          by rw [Nat.add_zero, Nat.mod_eq_of_lt hs]⟩
  | succ d' ih =>
    intro k fuel hk hfuel
    have hnpos : 0 < names.length := by omega
    have hcur : (s + k) % names.length < names.length := Nat.mod_lt _ hnpos
    have hk1 : k + 1 < names.length := by omega
    have hnext : (((s + k) % names.length) + 1) % names.length =
        (s + (k + 1)) % names.length := mod_step_cycle s k names.length
    have htgt : (s + (k + 1)) % names.length < names.length :=
      Nat.mod_lt _ hnpos
    obtain ⟨f, rfl⟩ : ∃ f, fuel = f + 1 := ⟨fuel - 1, by omega⟩
    have hstep := chainLoopAux_step_ref (cycleSchema names) f
      ((List.range k).map (fun t => (s + t) % names.length))
      ((s + k) % names.length)
      (names.getD ((s + k) % names.length) "")
      (names.getD ((((s + k) % names.length) + 1) % names.length) "")
      ((s + k) % names.length) ((s + (k + 1)) % names.length)
      (names.getD ((s + (k + 1)) % names.length) "")
      (names.getD (((s + (k + 1)) % names.length + 1) % names.length) "")
      ((s + (k + 1)) % names.length)
      (hget _ hcur)
      (by rw [hnext]; exact hidx _ htgt)
      (hget _ htgt)
    rw [hnext] at hstep
    rw [hstep, if_neg ?_]
    · have hvis : ((List.range k).map (fun t => (s + t) % names.length)) ++
          [(s + k) % names.length] =
          (List.range (k + 1)).map (fun t => (s + t) % names.length) := by
        rw [List.range_succ, List.map_append]
        rfl
      rw [hvis]
      exact ih (k + 1) f (by omega) (by omega)
    · intro hmem
      rcases List.mem_append.mp hmem with hmem | hmem
      · obtain ⟨t, ht, htval⟩ := List.mem_map.mp hmem
        have ht' : t < k := List.mem_range.mp ht
        have := mod_orbit_inj s names.length (lt_trans ht' (by omega)) hk1 htval
        omega
      · rw [List.mem_singleton] at hmem
        have := mod_orbit_inj s names.length hk1 (by omega) hmem
        omega

/-- The chain loop on an acyclic chain schema, started at `s` and
having walked `k` steps, attaches the terminal type to the originating
reference `s`. -/
theorem chain_walk (names : List String) (code : Nat) (hn : names.Nodup)
    (s : Nat) :
    ∀ (d k fuel : Nat), s + k + d + 2 = names.length → d + 1 ≤ fuel →
      chainLoopAux (chainSchema names code) fuel (List.range' s k) (s + k) =
      .attach s code := by
  have hget : ∀ i, i < names.length → (chainSchema names code).get? i =
      some ⟨names.getD i "",
            if i + 1 = names.length then .other code
            else .ref (names.getD (i + 1) "") i⟩ := by
    intro i hi
    simp only [chainSchema]
    exact schema_get names
      (fun j => if j + 1 = names.length then .other code
                else .ref (names.getD (j + 1) "") j) i hi
  have hidx : ∀ j, j < names.length →
      getTypeDefIdx (chainSchema names code) (names.getD j "") = some j := by
    intro j hj
    simp only [chainSchema]
    exact getTypeDefIdx_names names
      (fun i => if i + 1 = names.length then .other code
                else .ref (names.getD (i + 1) "") i) hn j hj
  have hgetRef : ∀ i, i + 2 ≤ names.length → (chainSchema names code).get? i =
      some ⟨names.getD i "", .ref (names.getD (i + 1) "") i⟩ := by
    intro i hi
    rw [hget i (by omega), if_neg (by omega)]
  have hgetTerm : 0 < names.length → (chainSchema names code).get?
      (names.length - 1) = some ⟨names.getD (names.length - 1) "", .other code⟩ := by
    intro hpos
    rw [hget (names.length - 1) (by omega), if_pos (by omega)]
  intro d
  induction d with
  | zero =>
    intro k fuel hk hfuel
    obtain ⟨f, rfl⟩ : ∃ f, fuel = f + 1 := ⟨fuel - 1, by omega⟩
    have hlast : s + k + 1 = names.length - 1 := by omega
    apply chainLoopAux_step_term (chainSchema names code) f (List.range' s k)
      (s + k) (names.getD (s + k) "") (names.getD (s + k + 1) "") (s + k)
      (s + k + 1) (names.getD (s + k + 1) "") code s
      (hgetRef (s + k) (by omega))
      (hidx (s + k + 1) (by omega))
      (by rw [show s + k + 1 = names.length - 1 from hlast]
          exact hgetTerm (by omega))
      ?_
    rw [← List.range'_1_concat]
    rw [List.range'_succ]
    rfl
  | succ d' ih =>
    intro k fuel hk hfuel
    obtain ⟨f, rfl⟩ : ∃ f, fuel = f + 1 := ⟨fuel - 1, by omega⟩
    have hstep := chainLoopAux_step_ref (chainSchema names code) f
      (List.range' s k) (s + k) (names.getD (s + k) "")
      (names.getD (s + k + 1) "") (s + k) (s + k + 1)
      (names.getD (s + k + 1) "") (names.getD (s + k + 2) "") (s + k + 1)
      (hgetRef (s + k) (by omega))
      (hidx (s + k + 1) (by omega))
      (hgetRef (s + k + 1) (by omega))
    rw [hstep, if_neg ?_]
    · rw [← List.range'_1_concat]
      have harg : s + k + 1 = s + (k + 1) := by omega
      rw [harg]
      exact ih (k + 1) f (by omega) (by omega)
    · intro hmem
      rcases List.mem_append.mp hmem with hmem | hmem
      · rw [List.mem_range'] at hmem
        obtain ⟨i, hi, hval⟩ := hmem
        omega
      · rw [List.mem_singleton] at hmem
        omega

theorem filterMap_congr_some {α β : Type} (f : α → Option β) (g : α → β) :
    ∀ l : List α, (∀ x ∈ l, f x = some (g x)) → l.filterMap f = l.map g := by
  intro l
  induction l with
  | nil => intro _; rfl
  | cons a tl ih =>
    intro h
    rw [List.filterMap_cons, h a (by simp), List.map_cons,
      ih (fun x hx => h x (List.mem_cons_of_mem _ hx))]

theorem cycleSchema_length (names : List String) :
    (cycleSchema names).length = names.length := by
  simp [cycleSchema]

theorem chainSchema_length (names : List String) (code : Nat) :
    (chainSchema names code).length = names.length := by
  simp [chainSchema]

theorem cycleSchema_get (names : List String) (i : Nat) (hi : i < names.length) :
    (cycleSchema names).get? i =
      some ⟨names.getD i "",
            .ref (names.getD ((i + 1) % names.length) "") i⟩ := by
  simp only [cycleSchema]
  exact schema_get names
    (fun j => .ref (names.getD ((j + 1) % names.length) "") j) i hi

theorem cycleSchema_idx (names : List String) (hn : names.Nodup) (j : Nat)
    (hj : j < names.length) :
    getTypeDefIdx (cycleSchema names) (names.getD j "") = some j := by
  simp only [cycleSchema]
  exact getTypeDefIdx_names names
    (fun i => .ref (names.getD ((i + 1) % names.length) "") i) hn j hj

theorem chainSchema_get (names : List String) (code : Nat) (i : Nat)
    (hi : i < names.length) :
    (chainSchema names code).get? i =
      some ⟨names.getD i "",
            if i + 1 = names.length then .other code
            else .ref (names.getD (i + 1) "") i⟩ := by
  simp only [chainSchema]
  exact schema_get names
    (fun j => if j + 1 = names.length then .other code
              else .ref (names.getD (j + 1) "") j) i hi

theorem chainSchema_idx (names : List String) (code : Nat) (hn : names.Nodup)
    (j : Nat) (hj : j < names.length) :
    getTypeDefIdx (chainSchema names code) (names.getD j "") = some j := by
  simp only [chainSchema]
  exact getTypeDefIdx_names names
    (fun i => if i + 1 = names.length then .other code
              else .ref (names.getD (i + 1) "") i) hn j hj

theorem refIndices_cycle (names : List String) :
    refIndices (cycleSchema names) = List.range names.length := by
  unfold refIndices
  rw [cycleSchema_length]
  apply List.filter_eq_self.mpr
  intro i hi
  rw [cycleSchema_get names i (List.mem_range.mp hi)]

theorem refIndices_chain (names : List String) (code : Nat)
    (hpos : 0 < names.length) :
    refIndices (chainSchema names code) = List.range (names.length - 1) := by
  unfold refIndices
  rw [chainSchema_length]
  have hsplit : List.range names.length =
      List.range (names.length - 1) ++ [names.length - 1] := by
    conv_lhs => rw [show names.length = (names.length - 1) + 1 by omega]
    rw [List.range_succ]
  rw [hsplit, List.filter_append]
  have h1 : (List.range (names.length - 1)).filter (fun i =>
      match (chainSchema names code).get? i with
      | some ⟨_, .ref _ _⟩ => true
      | _ => false) = List.range (names.length - 1) := by
    apply List.filter_eq_self.mpr
    intro i hi
    have hi' : i < names.length - 1 := List.mem_range.mp hi
    rw [chainSchema_get names code i (by omega), if_neg (by omega)]
  have hpred : (match (chainSchema names code).get? (names.length - 1) with
      | some ⟨_, .ref _ _⟩ => true
      | _ => false) = false := by
    rw [chainSchema_get names code (names.length - 1)
      (show names.length - 1 < names.length by omega)]
    rw [if_pos (show (names.length - 1) + 1 = names.length by omega)]
  have h2 : ([names.length - 1] : List Nat).filter (fun i =>
      match (chainSchema names code).get? i with
      | some ⟨_, .ref _ _⟩ => true
      | _ => false) = [] := by
    rw [List.filter_cons, List.filter_nil]
    simp only [hpred]
    rfl
  rw [h1, h2, List.append_nil]

/-- C3: a cycle of `n` type definitions each referencing the next makes
`_resolveTypeReferences` emit exactly `n` `circular type reference`
errors, one naming each participant (in definition order), and attach a
terminal target type to no reference; on an acyclic chain it emits no
error and attaches the terminal non-reference type to every originating
reference node. -/
theorem circular_reference_errors :
    (∀ names : List String, names.Nodup → 0 < names.length →
      resolveTypeReferences (cycleSchema names) =
        (List.range names.length).map (fun i =>
          ⟨.circularTypeReference (names.getD i ""),
           some "the given type reference ultimately refers to itself",
           some ((i + (names.length - 1)) % names.length)⟩) ∧
      chainAttachments (cycleSchema names) = []) ∧
    (∀ (names : List String) (code : Nat), names.Nodup → 0 < names.length →
      resolveTypeReferences (chainSchema names code) = [] ∧
      chainAttachments (chainSchema names code) =
        (List.range (names.length - 1)).map (fun i => (i, code))) := by
  constructor
  · intro names hn hpos
    have hall : resolveChainAll (cycleSchema names) =
        (List.range names.length).map (fun r =>
          .circular ⟨.circularTypeReference (names.getD r ""),
            some "the given type reference ultimately refers to itself",
            some ((r + (names.length - 1)) % names.length)⟩) := by
      unfold resolveChainAll
      rw [refIndices_cycle, cycleSchema_length]
      apply List.map_congr_left
      intro r hr
      have hr' : r < names.length := List.mem_range.mp hr
      have hwalk := cycle_walk names hn r hr' (names.length - 1) 0
        (names.length + 1) (by omega) (by omega)
      simpa [Nat.mod_eq_of_lt hr'] using hwalk
    have hnames : resolveNamesErrs (cycleSchema names) = [] := by
      unfold resolveNamesErrs
      rw [refIndices_cycle]
      rw [List.filterMap_eq_nil_iff]
      intro r hr
      have hr' : r < names.length := List.mem_range.mp hr
      rw [cycleSchema_get names r hr']
      simp only [cycleSchema_idx names hn ((r + 1) % names.length)
        (Nat.mod_lt _ hpos)]
    constructor
    · unfold resolveTypeReferences chainErrs
      rw [hnames, hall, List.nil_append, List.filterMap_map]
      exact filterMap_congr_some _ _ _ (fun x _ => rfl)
    · unfold chainAttachments
      rw [hall, List.filterMap_map]
      rw [List.filterMap_eq_nil_iff]
      intro r _
      rfl
  · intro names code hn hpos
    have hall : resolveChainAll (chainSchema names code) =
        (List.range (names.length - 1)).map (fun s => .attach s code) := by
      unfold resolveChainAll
      rw [refIndices_chain names code hpos, chainSchema_length]
      apply List.map_congr_left
      intro s hs
      have hs' : s < names.length - 1 := List.mem_range.mp hs
      have hwalk := chain_walk names code hn s (names.length - 2 - s) 0
        (names.length + 1) (by omega) (by omega)
      simpa using hwalk
    have hnames : resolveNamesErrs (chainSchema names code) = [] := by
      unfold resolveNamesErrs
      rw [refIndices_chain names code hpos]
      rw [List.filterMap_eq_nil_iff]
      intro r hr
      have hr' : r < names.length - 1 := List.mem_range.mp hr
      rw [chainSchema_get names code r (by omega), if_neg (by omega)]
      simp only [chainSchema_idx names code hn (r + 1) (by omega)]
    constructor
    · unfold resolveTypeReferences chainErrs
      rw [hnames, hall, List.nil_append, List.filterMap_map]
      rw [List.filterMap_eq_nil_iff]
      intro r _
      rfl
    · unfold chainAttachments
      rw [hall, List.filterMap_map]
      exact filterMap_congr_some _ _ _ (fun x _ => rfl)

/-- Witness for C3: scenario E5 (`a => b`, `b => c`, `c => a`) yields
exactly three circular-reference errors naming `a`, `b`, `c`, and the
chain `x => y`, `y => INTEGER` resolves with the terminal type attached
to both references. -/
theorem circular_reference_errors_witness :
    resolveTypeReferences (cycleSchema ["a", "b", "c"]) =
      [⟨.circularTypeReference "a",
        some "the given type reference ultimately refers to itself", some 2⟩,
       ⟨.circularTypeReference "b",
        some "the given type reference ultimately refers to itself", some 0⟩,
       ⟨.circularTypeReference "c",
        some "the given type reference ultimately refers to itself", some 1⟩] ∧
    chainAttachments (cycleSchema ["a", "b", "c"]) = [] ∧
    resolveTypeReferences (chainSchema ["x", "y"] 7) = [] ∧
    chainAttachments (chainSchema ["x", "y"] 7) = [(0, 7)] := by
  obtain ⟨h1, h2⟩ := circular_reference_errors.1 ["a", "b", "c"]
    (by decide) (by decide)
  obtain ⟨h3, h4⟩ := circular_reference_errors.2 ["x", "y"] 7
    (by decide) (by decide)
  refine ⟨?_, h2, h3, ?_⟩
  · rw [h1]; rfl
  · rw [h4]; rfl

/-! ### No component of `validate` ever records an ambiguous-tag
diagnostic -/

theorem chainLoopAux_circ_msg (tds : List TypeDefM) :
    ∀ (fuel : Nat) (visited : List Nat) (r : Nat) (e : SchemaErr),
      chainLoopAux tds fuel visited r = .circular e →
      ∃ nm, e.msg = .circularTypeReference nm := by
  intro fuel
  induction fuel with
  | zero => intro visited r e h; exact absurd h (by simp [chainLoopAux])
  | succ f ih =>
    intro visited r e h
    simp only [chainLoopAux] at h
    repeat' split at h
    all_goals try exact ChainRes.noConfusion h
    all_goals try exact ih _ _ e h
    all_goals (injection h with h2; exact ⟨_, by rw [← h2]⟩)

theorem resolveTypeReferences_msg (tds : List TypeDefM) :
    ∀ e ∈ resolveTypeReferences tds, e.msg ≠ .ambiguousTag := by
  intro e he
  rcases List.mem_append.mp he with he | he
  · obtain ⟨r, _, hf⟩ := List.mem_filterMap.mp he
    repeat' split at hf
    all_goals try exact Option.noConfusion hf
    all_goals (obtain rfl := Option.some_injective _ hf; simp)
  · obtain ⟨res, hres, hf⟩ := List.mem_filterMap.mp he
    unfold resolveChainAll at hres
    obtain ⟨r, _, hr⟩ := List.mem_map.mp hres
    split at hf
    · rename_i x
      obtain rfl := Option.some_injective _ hf
      obtain ⟨nm, hnm⟩ := chainLoopAux_circ_msg tds _ _ _ _ hr
      rw [hnm]
      simp
    · exact Option.noConfusion hf

theorem resolveVendorRefOf_msg (files : List FileM) (p : ProfileM) :
    ∀ e ∈ (resolveVendorRefOf files p).2, e.msg ≠ .ambiguousTag := by
  intro e he
  unfold resolveVendorRefOf at he
  repeat' split at he
  all_goals
    first
      | exact absurd he (List.not_mem_nil e)
      | (rw [List.mem_singleton] at he; subst he; simp)

theorem vendorValidate_msg (v : VendorDeclM) :
    ∀ e ∈ vendorValidate v, e.msg ≠ .ambiguousTag := by
  intro e he
  unfold vendorValidate at he
  repeat' split at he
  all_goals
    first
      | exact absurd he (List.not_mem_nil e)
      | (rw [List.mem_singleton] at he; subst he; simp)

theorem structuredValidate_msg (s : StructM) :
    ∀ e ∈ structuredValidate s, e.msg ≠ .ambiguousTag := by
  intro e he
  rcases s with ⟨isFG, nid, ms⟩
  rcases List.mem_append.mp he with he | he
  rcases List.mem_append.mp he with he | he
  rcases List.mem_append.mp he with he | he
  · rw [dupIncludesAux_msg _ ms [] e he]
    simp
  · obtain ⟨nm, hnm⟩ := dupFieldNamesAux_msg _ _ _ [] e he
    rw [hnm]
    simp
  · rcases missingTagsAux_msg _ ms e he with ⟨nm, hnm⟩ | hnm <;> rw [hnm] <;> simp
  · obtain ⟨t, ht⟩ := dupTagsAux_msg _ _ [] e he
    rw [ht]
    simp

theorem integerEnumValueValidate_msg (t : IntTypeM) (v : IntegerEnumValueM) :
    ∀ e ∈ integerEnumValueValidate t v, e.msg ≠ .ambiguousTag := by
  intro e he
  unfold integerEnumValueValidate at he
  split at he
  · exact absurd he (List.not_mem_nil e)
  · rw [List.mem_singleton] at he; subst he; simp

theorem checkInconsistentVendorIds_msg (groups : List (List VendorDeclM)) :
    ∀ e ∈ checkInconsistentVendorIds groups, e.msg ≠ .ambiguousTag := by
  intro e he
  obtain ⟨g, _, hg⟩ := List.mem_flatMap.mp he
  rcases hfil : g.filter (fun v => v.id.isSome) with _ | ⟨v0, tl⟩
  · rw [hfil] at hg
    exact absurd (show e ∈ ([] : List SchemaErr) from hg) (List.not_mem_nil e)
  · rw [hfil] at hg
    obtain ⟨v, _, hf⟩ := List.mem_filterMap.mp
      (show e ∈ List.filterMap (fun v =>
        match v.id with
        | none => none
        | some i =>
          if v.id ≠ v0.id then
            some ⟨.inconsistentVendorId i,
                  some "VENDOR definitions with the same name must declare the same vendor id",
                  some v.srcRef⟩
          else none) (v0 :: tl) from hg)
    repeat' split at hf
    all_goals try exact Option.noConfusion hf
    all_goals (obtain rfl := Option.some_injective _ hf; simp)

theorem checkInconsistentProfileIds_msg (groups : List (List ProfileM)) :
    ∀ e ∈ checkInconsistentProfileIds groups, e.msg ≠ .ambiguousTag := by
  intro e he
  obtain ⟨g, _, hg⟩ := List.mem_flatMap.mp he
  rcases hfil : g.filter (fun p => p.id.isSome) with _ | ⟨p0, tl⟩
  · rw [hfil] at hg
    exact absurd (show e ∈ ([] : List SchemaErr) from hg) (List.not_mem_nil e)
  · rw [hfil] at hg
    obtain ⟨p, _, hf⟩ := List.mem_filterMap.mp
      (show e ∈ List.filterMap (fun p =>
        match p.id with
        | none => none
        | some i =>
          if p.id ≠ p0.id then
            some ⟨.inconsistentProfileId i,
                  some "PROFILE definitions with the same name must declare the same profile id",
                  some p.srcRef⟩
          else none) (p0 :: tl) from hg)
    repeat' split at hf
    all_goals try exact Option.noConfusion hf
    all_goals (obtain rfl := Option.some_injective _ hf; simp)

theorem checkUniqueProfileIdsAux_msg :
    ∀ (l : List ProfileM) (seen : List (Int × ProfileM)) (e : SchemaErr),
      e ∈ checkUniqueProfileIdsAux seen l → e.msg ≠ .ambiguousTag := by
  intro l
  induction l with
  | nil => intro seen e he; exact absurd he (List.not_mem_nil e)
  | cons p tl ih =>
    intro seen e he
    simp only [checkUniqueProfileIdsAux] at he
    repeat' split at he
    all_goals
      first
        | exact ih _ e he
        | (rcases List.mem_cons.mp he with rfl | hmem
           · simp
           · exact ih _ e hmem)

theorem collectionErrs_no_ambiguous (files : List FileM) :
    ∀ e ∈ collectionErrs files, e.msg ≠ .ambiguousTag := by
  intro e he
  unfold collectionErrs at he
  rcases List.mem_append.mp he with he | he
  rcases List.mem_append.mp he with he | he
  rcases List.mem_append.mp he with he | he
  rcases List.mem_append.mp he with he | he
  rcases List.mem_append.mp he with he | he
  · exact resolveTypeReferences_msg _ e he
  · obtain ⟨r, hr, hmem⟩ := List.mem_flatMap.mp he
    obtain ⟨p, _, rfl⟩ := List.mem_map.mp hr
    exact resolveVendorRefOf_msg files p e hmem
  · obtain ⟨f, _, hmem⟩ := List.mem_flatMap.mp he
    rcases List.mem_append.mp hmem with hm | hm
    rcases List.mem_append.mp hm with hm2 | hm2
    · obtain ⟨v, _, hv⟩ := List.mem_flatMap.mp hm2
      exact vendorValidate_msg v e hv
    · obtain ⟨st, _, hst⟩ := List.mem_flatMap.mp hm2
      exact structuredValidate_msg st e hst
    · obtain ⟨en, _, hen⟩ := List.mem_flatMap.mp hm
      obtain ⟨ev, _, hev⟩ := List.mem_flatMap.mp hen
      exact integerEnumValueValidate_msg en.1 ev e hev
  · exact checkInconsistentVendorIds_msg _ e he
  · exact checkInconsistentProfileIds_msg _ e he
  · exact checkUniqueProfileIdsAux_msg _ [] e he

/-- C2: after resolution, `effectiveTag` returns `None` on an empty
possible-tag list, the unique element on a singleton list, and raises
`AmbiguousTagError` on a longer list — and `validate()` never records an
ambiguous-tag condition as a schema diagnostic. -/
theorem effective_tag_trichotomy :
    (∀ n : TagNode, n.possibleTags = [] → n.effectiveTagE = .ok none) ∧
    (∀ (n : TagNode) (t : Option TagQ), n.possibleTags = [t] →
      n.effectiveTagE = .ok t) ∧
    (∀ n : TagNode, 2 ≤ n.possibleTags.length → n.effectiveTagE = .error .mk) ∧
    (∀ (c : CollectionM) (e : SchemaErr), e ∈ (collectionValidate c).2 →
      e.msg ≠ .ambiguousTag) := by
  refine ⟨?_, ?_, ?_, ?_⟩
  · intro n h
    simp only [TagNode.effectiveTagE, h]
  · intro n t h
    simp only [TagNode.effectiveTagE, h]
  · intro n h
    rcases hl : n.possibleTags with _ | ⟨a, _ | ⟨b, l⟩⟩
    · rw [hl] at h; simp at h
    · rw [hl] at h; simp at h
    · simp only [TagNode.effectiveTagE, hl]
  · intro c e he
    exact collectionErrs_no_ambiguous _ e he

/-- Witness for C2: an untagged scalar node (`None`), a directly tagged
node (the unique element), the E4 choice node (ambiguous), and an error
of a concrete validation run. -/
theorem effective_tag_trichotomy_witness :
    TagNode.effectiveTagE ⟨none, .scalar⟩ = .ok none ∧
    TagNode.effectiveTagE ⟨some (ctxTag 1 60), .scalar⟩ =
      .ok (some (ctxTag 1 60)) ∧
    TagNode.effectiveTagE ⟨none, .choice exChoiceE4⟩ = .error .mk ∧
    SchemaErr.msg ⟨.idQualifierMissing "VENDOR definition", none, some 5⟩ ≠
      .ambiguousTag :=
  ⟨effective_tag_trichotomy.1 ⟨none, .scalar⟩ rfl,
   effective_tag_trichotomy.2.1 ⟨some (ctxTag 1 60), .scalar⟩
     (some (ctxTag 1 60)) rfl,
   effective_tag_trichotomy.2.2.1 ⟨none, .choice exChoiceE4⟩ (by decide),
   effective_tag_trichotomy.2.2.2
     ⟨[⟨"f", [], [], [], [⟨"v", none, 5⟩], []⟩], true⟩
     ⟨.idQualifierMissing "VENDOR definition", none, some 5⟩ (by decide)⟩

end WeaveTLV
